import Mathlib

/-!
Shallow embedding of the `writer_reader_inkml` repository (Rust sources under
`src/`): the trace-data micro-parser (`trace_data.rs`), the channel vocabulary
and context model (`context.rs`), the brush model and deduplication collection
(`brushes.rs`), the streaming document parser and canonicalizer (`parser.rs`),
the attribute helpers (`xml_helpers.rs`) and the emitter (`writer.rs`).

Modelling conventions:
* Rust `f64` values are modelled as `ℚ`; the numeric-literal grammars of
  `str::parse::<f64>` / `str::parse::<i64>` are modelled by `parseF64` /
  `parseI64` below (finite decimal forms; `inf`/`nan` spellings are outside
  the model).
* Rust `anyhow::Result` is `Except String`; a Rust panic (`unwrap` on `None`,
  out-of-range index) is modelled as an `Except.error` as well.
* `HashMap` is modelled as an association list with replace-on-insert
  semantics; the parser only observes `contains_key`, `get`, `insert`,
  `len` and `keys().next()` (the latter only when the map has one entry).
-/

namespace Inkml

/-- Set of characters treated as whitespace by the trace-data parser
(`' ' | '\r' | '\n' | '\t'` in `trace_data.rs`). -/
def isSpaceLike (c : Char) : Bool :=
  c = ' ' || c = '\r' || c = '\n' || c = '\t'

/-- The `'` character (written via its code to keep the file ASCII-clean). -/
def singleQuoteChar : Char := Char.ofNat 39

/-- The `"` character. -/
def doubleQuoteChar : Char := Char.ofNat 34

/-- Strip one optional leading sign; returns `(isNegative, rest)`. -/
def parseSign : List Char → Bool × List Char
  | c :: rest =>
    if c = '-' then (true, rest)
    else if c = '+' then (false, c :: rest |>.tail)
    else (false, c :: rest)
  | [] => (false, [])

/-- Numeric value of a nonempty all-digit character list, most significant
first; `none` if empty or a non-digit occurs. -/
def digitsToNat? (cs : List Char) : Option Nat :=
  match cs with
  | [] => none
  | _ =>
    cs.foldlM (fun a c => if c.isDigit then some (a * 10 + (c.toNat - 48)) else none)
      (0 : Nat)

/-- Model of Rust `str::parse::<i64>`: optional sign, one or more decimal
digits, value within the `i64` range. -/
def parseI64 (s : String) : Option Int :=
  let sr := parseSign s.data
  match digitsToNat? sr.2 with
  | none => none
  | some n =>
    let v : Int := if sr.1 then -(n : Int) else (n : Int)
    if v < -(2 ^ 63) ∨ 2 ^ 63 - 1 < v then none else some v

/-- Model of Rust `str::parse::<u16>`: optional `+`, decimal digits, value
below `2^16`. -/
def parseU16 (s : String) : Option Nat :=
  let cs := match s.data with
            | c :: rest => if c = '+' then rest else c :: rest
            | [] => []
  match digitsToNat? cs with
  | none => none
  | some n => if n < 2 ^ 16 then some n else none

/-- Model of Rust `str::parse::<f64>` restricted to finite decimal literals:
`sign? (digits | digits . digits* | digits* . digits) ((e|E) sign? digits)?`,
read as an exact rational (the `inf`/`infinity`/`nan` spellings accepted by
Rust are outside this model). -/
def parseF64 (s : String) : Option ℚ :=
  let sr := parseSign s.data
  let ip := sr.2.span Char.isDigit
  let afterInt := ip.2
  let fracAndExp :=
    match afterInt with
    | c :: rest => if c = '.' then some (rest.span Char.isDigit) else none
    | [] => none
  let fracDigits := match fracAndExp with | some p => p.1 | none => []
  let afterFrac := match fracAndExp with | some p => p.2 | none => afterInt
  if ip.1 = [] ∧ fracDigits = [] then none
  else
    let expVal : Option (Int × List Char) :=
      match afterFrac with
      | c :: rest =>
        if c = 'e' ∨ c = 'E' then
          let esr := parseSign rest
          match digitsToNat? esr.2 with
          | some e => some ((if esr.1 then -(e : Int) else (e : Int)), ([] : List Char))
          | none => none
        else none
      | [] => some (0, [])
    match expVal, afterFrac with
    | some ev, _ =>
      let intVal : ℚ := ((digitsToNat? ip.1).getD 0 : ℕ)
      let fracVal : ℚ := ((digitsToNat? fracDigits).getD 0 : ℕ) / (10 : ℚ) ^ fracDigits.length
      let mag : ℚ := (intVal + fracVal) * (10 : ℚ) ^ (ev.1)
      some (if sr.1 then -mag else mag)
    | none, _ => none

/-- `trace_data.rs`: per-channel sample storage. -/
inductive ChannelData
  | Integer (l : List Int)
  | Double (l : List ℚ)
  | Bool (l : List Bool)
deriving DecidableEq, Repr

/-- `trace_data.rs`: scalar companion used for delta accumulators and
channel `max` values. -/
inductive ChannelDataEl
  | Integer (i : Int)
  | Double (q : ℚ)
  | Bool
deriving DecidableEq, Repr

/-- `ChannelData::cast_to_float` from `trace_data.rs`. -/
def ChannelData.cast_to_float : ChannelData → ℚ → List ℚ
  | .Integer int_vec, scaling => int_vec.map (fun x => (x : ℚ) * scaling)
  | .Bool bool_vec, scaling => bool_vec.map (fun x => (if x then (1 : ℚ) else 0) * scaling)
  | .Double double_vec, scaling => double_vec.map (fun x => x * scaling)

/-- `ChannelDataEl::to_float` from `trace_data.rs`. -/
def ChannelDataEl.to_float : ChannelDataEl → ℚ
  | .Integer integer => (integer : ℚ)
  | .Double double => double
  | .Bool => 1

/-- `String::from(ChannelDataEl)` from `trace_data.rs` (`Bool` renders as
`"1"`, numbers by their display form; for the rational model integral values
render without a decimal point, as Rust's `{}` does for e.g. `32767`). -/
def ChannelDataEl.toDisplayString : ChannelDataEl → String
  | .Bool => "1"
  | .Double value => if value.den = 1 then toString value.num else toString value
  | .Integer value => toString value

/-- `context.rs`: channel kinds. -/
inductive ChannelKind
  | X | Y | F | OA | OE | OTx | OTy
deriving DecidableEq, Repr

/-- `context.rs`: channel encoding types. -/
inductive ChannelType
  | Integer | Decimal | Double | Bool
deriving DecidableEq, Repr

/-- `context.rs`: resolution units. -/
inductive ResolutionUnits
  | OneOverCm | OneOverMm | OneOverDev | OneOverDegree | OneOverHimetric
deriving DecidableEq, Repr

/-- `context.rs`: channel units. -/
inductive ChannelUnit
  | mm | cm | m | dev | deg | himetric
deriving DecidableEq, Repr

/-- `ChannelKind::parse` from `context.rs`. -/
def ChannelKind.parse : Option String → Except String ChannelKind
  | some value =>
    if value = "X" then .ok .X
    else if value = "Y" then .ok .Y
    else if value = "F" then .ok .F
    else if value = "OA" then .ok .OA
    else if value = "OE" then .ok .OE
    else if value = "OTx" then .ok .OTx
    else if value = "OTy" then .ok .OTy
    else .error ("the channel kind " ++ value ++ " was not found")
  | none => .error "an empty string was given"

/-- `ChannelKind::get_default_resolution_unit` from `context.rs`. -/
def ChannelKind.get_default_resolution_unit : ChannelKind → ResolutionUnits
  | .X | .Y => .OneOverCm
  | .F => .OneOverDev
  | .OA | .OE | .OTx | .OTy => .OneOverDegree

/-- `ChannelKind::get_default_unit` from `context.rs`. -/
def ChannelKind.get_default_unit : ChannelKind → ChannelUnit
  | .X | .Y => .cm
  | .F => .dev
  | .OA | .OE | .OTx | .OTy => .deg

/-- `String::from(ChannelKind)` from `context.rs` (note the source renders
`OE` as `"OF"`). -/
def ChannelKind.toDisplayString : ChannelKind → String
  | .X => "X"
  | .Y => "Y"
  | .F => "F"
  | .OA => "OA"
  | .OE => "OF"
  | .OTx => "OTx"
  | .OTy => "OTy"

/-- `ChannelType::parse` from `context.rs`. -/
def ChannelType.parse : Option String → Except String ChannelType
  | some value =>
    if value = "integer" then .ok .Integer
    else if value = "decimal" then .ok .Decimal
    else if value = "double" then .ok .Double
    else if value = "boolean" then .ok .Bool
    else .error ("the channel type " ++ value ++ " is not part of the types accepted")
  | none => .error "ChannelType:parse was given a None"

/-- `ChannelType::get_max_value` from `context.rs`: parse the optional `max`
attribute with the channel's own numeric parser, swallowing parse errors
(`.ok()` in the source). -/
def ChannelType.get_max_value : ChannelType → Option String → Option ChannelDataEl
  | _, none => none
  | .Integer, some max_parsed_str => (parseI64 max_parsed_str).map ChannelDataEl.Integer
  | .Double, some max_parsed_str => (parseF64 max_parsed_str).map ChannelDataEl.Double
  | .Decimal, some max_parsed_str => (parseF64 max_parsed_str).map ChannelDataEl.Double
  | .Bool, some _ => none

/-- `String::from(ChannelType)` from `context.rs`. -/
def ChannelType.toDisplayString : ChannelType → String
  | .Integer => "integer"
  | .Decimal => "decimal"
  | .Double => "double"
  | .Bool => "bool"

/-- `ChannelType::get_null_value` from `context.rs`. -/
def ChannelType.get_null_value : ChannelType → ChannelDataEl
  | .Integer => .Integer 0
  | .Decimal => .Double 0
  | .Bool => .Bool
  | .Double => .Double 0

/-- `String::from(ResolutionUnits)` from `context.rs`. -/
def ResolutionUnits.toDisplayString : ResolutionUnits → String
  | .OneOverCm => "1/cm"
  | .OneOverMm => "1/mm"
  | .OneOverDev => "1/dev"
  | .OneOverDegree => "1/deg"
  | .OneOverHimetric => "1/himetric"

/-- `ResolutionUnits::parse` from `context.rs`. -/
def ResolutionUnits.parse : Option String → Except String ResolutionUnits
  | some value =>
    if value = "1/cm" then .ok .OneOverCm
    else if value = "1/mm" then .ok .OneOverMm
    else if value = "1/dev" then .ok .OneOverDev
    else if value = "1/deg" then .ok .OneOverDegree
    else if value = "1/himetric" then .ok .OneOverHimetric
    else .error ("Could not find a ResolutionUnits matching " ++ value)
  | none => .error "ResolutionUnits::parse was given a None, aborting"

/-- `String::from(ChannelUnit)` from `context.rs`. -/
def ChannelUnit.toDisplayString : ChannelUnit → String
  | .mm => "mm"
  | .cm => "cm"
  | .m => "m"
  | .dev => "dev"
  | .deg => "deg"
  | .himetric => "himetric"

/-- `ChannelUnit::parse` from `context.rs` (returns `Option`, not a
`Result`, in the source). -/
def ChannelUnit.parse : Option String → Option ChannelUnit
  | some value =>
    if value = "mm" then some .mm
    else if value = "cm" then some .cm
    else if value = "m" then some .m
    else if value = "dev" then some .dev
    else if value = "deg" then some .deg
    else if value = "himetric" then some .himetric
    else none
  | none => none

/-- `ChannelUnit::convert_to` from `context.rs`: the explicit pairwise
conversion table; every pair not listed falls through to the error arm. -/
def ChannelUnit.convert_to (self : ChannelUnit) (output_unit : ChannelUnit)
    (input_value : ℚ) : Except String ℚ :=
  match self, output_unit with
  | .mm, .mm => .ok input_value
  | .mm, .cm => .ok (input_value * (1 / 10))
  | .mm, .m => .ok (input_value * (1 / 1000))
  | .cm, .mm => .ok (input_value * 10)
  | .cm, .cm => .ok input_value
  | .cm, .m => .ok (input_value * (1 / 100))
  | .m, .mm => .ok (input_value * 1000)
  | .m, .cm => .ok (input_value * 100)
  | .m, .m => .ok input_value
  | .deg, .deg => .ok input_value
  | .dev, .dev => .ok input_value
  | .himetric, .cm => .ok (input_value * (1 / 1000))
  | .himetric, .mm => .ok (input_value * (1 / 100))
  | .himetric, .m => .ok (input_value * (1 / 100000))
  | _, _ => .error "Could not convert. Is the conversion valid ?"

/-- `trace_data.rs`: value modifier tokens (`!`, `'`, `"`). -/
inductive ValueModifier
  | Explicit | SingleDifference | DoubleDifference
deriving DecidableEq, Repr

/-- `ChannelData::map_from_channel_type` from `trace_data.rs`. -/
def ChannelData.map_from_channel_type : ChannelType → ChannelData
  | .Integer => .Integer []
  | .Decimal => .Double []
  | .Bool => .Bool []
  | .Double => .Double []

/-- `trace_data.rs`: the mutable state of the trace-data micro-parser. -/
structure TraceData where
  data : List ChannelData
  last_value_modifiers : List ValueModifier
  last_value_difference : List ChannelDataEl
  index_channel : Nat
  value_str : String
  is_value_found : Bool
  new_modifier : ValueModifier
deriving DecidableEq, Repr

/-- `TraceData::from_channel_types` from `trace_data.rs`. -/
def TraceData.from_channel_types (types : List ChannelType) : TraceData :=
  { data := types.map ChannelData.map_from_channel_type
    last_value_difference := types.map ChannelType.get_null_value
    last_value_modifiers := List.replicate types.length .Explicit
    index_channel := 0
    value_str := ""
    new_modifier := .Explicit
    is_value_found := false }

/-- The common tail of `TraceData::push_found_value` in `trace_data.rs`:
record the committed modifier for the current channel, clear the accumulator
string, advance the channel index, reset `is_value_found`. -/
def TraceData.finishPush (st : TraceData) : Except String TraceData :=
  .ok { st with
        last_value_modifiers := st.last_value_modifiers.set st.index_channel st.new_modifier
        value_str := ""
        index_channel := st.index_channel + 1
        is_value_found := false }

/-- `TraceData::push_found_value` from `trace_data.rs`: parse `value_str`
with the current channel's numeric parser, apply the pending modifier
(explicit / single difference / double difference), update the per-channel
delta accumulator, store the committed modifier, clear `value_str`, advance
`index_channel`. An out-of-range index into `last_value_difference` (a panic
in the source) is an error here. -/
def TraceData.push_found_value (st : TraceData) : Except String TraceData :=
  match st.data.get? st.index_channel with
  | none => .error "Could not find the current channel"
  | some (.Integer current) =>
    match parseI64 st.value_str with
    | none => .error "Could not parse the value as int"
    | some value =>
      match st.new_modifier with
      | .Explicit =>
        TraceData.finishPush
          { st with data := st.data.set st.index_channel (.Integer (current ++ [value])) }
      | .SingleDifference =>
        match current.getLast? with
        | none => .error "could not find the previous value for the channel"
        | some previous =>
          match st.last_value_difference.get? st.index_channel with
          | none => .error "index out of range"
          | some (.Integer last_difference) =>
            TraceData.finishPush
              { st with
                last_value_difference := st.last_value_difference.set st.index_channel
                  (.Integer (last_difference + value))
                data := st.data.set st.index_channel
                  (.Integer (current ++ [value + previous])) }
          | some _ => .error "The saved previous element for the channel is incorrect."
      | .DoubleDifference =>
        match current.getLast? with
        | none => .error "Could not find the previous value for the channel."
        | some previous =>
          match st.last_value_difference.get? st.index_channel with
          | none => .error "index out of range"
          | some (.Integer last_difference) =>
            TraceData.finishPush
              { st with
                last_value_difference := st.last_value_difference.set st.index_channel
                  (.Integer (last_difference + value))
                data := st.data.set st.index_channel
                  (.Integer (current ++ [value + previous + last_difference])) }
          | some _ => .error "The saved previous element for the channel is incorrect"
  | some (.Double current) =>
    match parseF64 st.value_str with
    | none => .error "Could not parse to float"
    | some value =>
      match st.new_modifier with
      | .Explicit =>
        TraceData.finishPush
          { st with data := st.data.set st.index_channel (.Double (current ++ [value])) }
      | .SingleDifference =>
        match current.getLast? with
        | none => .error "could not find the previous value for the channel."
        | some previous =>
          match st.last_value_difference.get? st.index_channel with
          | none => .error "index out of range"
          | some (.Double last_difference) =>
            TraceData.finishPush
              { st with
                last_value_difference := st.last_value_difference.set st.index_channel
                  (.Double (last_difference + value))
                data := st.data.set st.index_channel
                  (.Double (current ++ [value + previous])) }
          | some _ => .error "The saved previous element for the channel is incorrect"
      | .DoubleDifference =>
        match current.getLast? with
        | none => .error "could not find the previous value for the channel."
        | some previous =>
          match st.last_value_difference.get? st.index_channel with
          | none => .error "index out of range"
          | some (.Double last_difference) =>
            TraceData.finishPush
              { st with
                last_value_difference := st.last_value_difference.set st.index_channel
                  (.Double (last_difference + value))
                data := st.data.set st.index_channel
                  (.Double (current ++ [value + previous + last_difference])) }
          | some _ => .error "The saved previous element for the channel is incorrect"
  | some (.Bool current) =>
    match (if st.value_str = "T" then some true
           else if st.value_str = "F" then some false else none) with
    | some bool_value =>
      TraceData.finishPush
        { st with data := st.data.set st.index_channel (.Bool (current ++ [bool_value])) }
    | none => .error "Could not parse to bool"

/-- One iteration step of the `while self.index_channel < ...` loop inside
`TraceData::parse_raw_data` (`trace_data.rs`): dispatch on the next character
of the current comma-separated segment. Returns the state after consuming
the character. -/
def TraceData.handleChar (st : TraceData) (next_char : Char) : Except String TraceData :=
  if isSpaceLike next_char then
    if st.is_value_found then st.push_found_value else .ok st
  else if next_char = '!' then
    let st := { st with new_modifier := .Explicit }
    if st.is_value_found then st.push_found_value else .ok st
  else if next_char = singleQuoteChar then
    let st := { st with new_modifier := .SingleDifference }
    if st.is_value_found then st.push_found_value else .ok st
  else if next_char = doubleQuoteChar then
    let st := { st with new_modifier := .DoubleDifference }
    if st.is_value_found then st.push_found_value else .ok st
  else if next_char.isDigit ∨ next_char = '.' then
    .ok { st with is_value_found := true, value_str := st.value_str.push next_char }
  else if next_char = '-' then
    if st.is_value_found then do
      let st ← st.push_found_value
      let st := { st with is_value_found := true }
      match st.last_value_modifiers.get? st.index_channel with
      | none => .error "Could not find the last value modified for the current channel"
      | some m =>
        .ok { st with new_modifier := m, value_str := st.value_str.push next_char }
    else
      .ok { st with is_value_found := true, value_str := st.value_str.push next_char }
  else if next_char = 'T' ∨ next_char = 'F' then do
    let st := { st with is_value_found := true, value_str := st.value_str.push next_char }
    st.push_found_value
  else
    .error ("Unexpected char " ++ next_char.toString ++ " found")

/-- The `while self.index_channel < self.last_value_modifiers.len()` loop of
`TraceData::parse_raw_data`: consume characters until every channel of the
current segment has a value; at end of input, commit an in-progress value
(and fail if channels remain), mirroring the `None` arm of the source.
Returns the state and the unconsumed remainder of the segment. -/
def TraceData.traceLoop (st : TraceData) (cs : List Char) :
    Except String (TraceData × List Char) :=
  if st.index_channel < st.last_value_modifiers.length then
    match cs with
    | [] =>
      if st.is_value_found then do
        let st ← st.push_found_value
        if st.index_channel < st.last_value_modifiers.length then
          .error "Unexpected end. Expected more data before the end of the current trace"
        else
          .ok (st, [])
      else
        .error "Unexpected end. Expected more data before the end of the current trace"
    | c :: rest => do
      let st ← st.handleChar c
      st.traceLoop rest
  else
    .ok (st, cs)
termination_by cs.length
decreasing_by
  simp_wf

/-- Processing of one comma-separated segment inside
`TraceData::parse_raw_data`: reset `index_channel` and `is_value_found`,
re-load `new_modifier` from the first channel's stored modifier, run the
value loop, then require the unconsumed remainder to be whitespace only. -/
def TraceData.parseSegment (st : TraceData) (line : String) : Except String TraceData := do
  let st := { st with index_channel := 0, is_value_found := false }
  match st.last_value_modifiers.get? st.index_channel with
  | none => .error ""
  | some m =>
    let st := { st with new_modifier := m }
    let (st, remainder) ← st.traceLoop line.data
    if remainder.all isSpaceLike then
      .ok st
    else
      .error "char not expected, we only expected space-like elements"

/-- `TraceData::parse_raw_data` from `trace_data.rs`: split the character
payload on `,` and process each segment in order. -/
def TraceData.parse_raw_data (st : TraceData) (line_str : String) :
    Except String TraceData :=
  (line_str.splitOn ",").foldlM TraceData.parseSegment st

/-- `trace_data.rs`: canonical stroke (X, Y in cm; F in `[0,1]`), with the
`f64` coordinates modelled as rationals. -/
structure FormattedStroke where
  x : List ℚ
  y : List ℚ
  f : List ℚ
deriving DecidableEq, Repr

/-- Truncation toward zero on `ℚ`, the rounding used by Rust's `as` casts
from `f64` to an integer type. -/
def ratTrunc (q : ℚ) : Int :=
  if 0 ≤ q then ⌊q⌋ else ⌈q⌉

/-- Model of Rust `x as i64` for an `f64` operand: truncate toward zero and
saturate to the `i64` range. -/
def castF64ToI64 (q : ℚ) : Int :=
  max (-(2 ^ 63)) (min (2 ^ 63 - 1) (ratTrunc q))

/-- Model of Rust `x as u64` for an `f64` operand: truncate toward zero and
saturate to the `u64` range (negative values collapse to `0`). -/
def castF64ToU64 (q : ℚ) : Int :=
  max 0 (min (2 ^ 64 - 1) (ratTrunc q))

/-- The body of the fold inside `FormattedStroke::write` (`trace_data.rs`):
render one `((x, y), f)` sample as `"{x_int} {y_int} {f_int},"` with the
source's `as i64` / `as u64` casts after scaling by `1000` / `32767`. -/
def FormattedStroke.sampleChunk (xyf : (ℚ × ℚ) × ℚ) : String :=
  toString (castF64ToI64 (xyf.1.1 * 1000)) ++ " " ++
    toString (castF64ToI64 (xyf.1.2 * 1000)) ++ " " ++
    toString (castF64ToU64 (xyf.2 * 32767)) ++ ","

/-- The character-data string written by `FormattedStroke::write`
(`trace_data.rs`): fold the zipped samples into `"... ,"` chunks and drop the
final character. On an empty sample list the source slices `[0..len-1]` with
`len = 0`, a panic, modelled as `none`. -/
def FormattedStroke.writeChardata (s : FormattedStroke) : Option String :=
  let string_out := ((s.x.zip s.y).zip s.f).foldl
    (fun acc p => acc ++ FormattedStroke.sampleChunk p) ""
  if string_out.length = 0 then none
  else some (string_out.take (string_out.length - 1))

/-- `context.rs`: a channel descriptor. The `stroke_width`-style `f64`
fields are rationals in the model. -/
structure Channel where
  kind : ChannelKind
  types : ChannelType
  resolution_value : ℚ
  max_value : Option ChannelDataEl
  unit_resolution : ResolutionUnits
  unit_channel : ChannelUnit
deriving DecidableEq, Repr

/-- `Channel::initialise_channel_from_name` from `context.rs`: the argument
is the `[name, type, units, max]` attribute list produced by `get_ids` (always
of length four; any other shape is the source's out-of-bounds panic). -/
def Channel.initialise_channel_from_name (kind_type_unit_v : List (Option String)) :
    Except String Channel :=
  match kind_type_unit_v with
  | [kindOpt, channel_type, unit, maxOpt] => do
    let channel_kind ← ChannelKind.parse kindOpt
    let types ← ChannelType.parse channel_type
    .ok { kind := channel_kind
          types := types
          resolution_value := 1000
          max_value := types.get_max_value maxOpt
          unit_resolution := channel_kind.get_default_resolution_unit
          unit_channel := (ChannelUnit.parse unit).getD channel_kind.get_default_unit }
  | _ => .error "index out of bounds"

/-- `Channel::get_scaling` from `context.rs`. -/
def Channel.get_scaling (self : Channel) : ℚ :=
  if self.max_value.isSome ∧ self.kind = .F then
    1 / (self.max_value.getD .Bool).to_float
  else
    let base := match self.unit_resolution with
      | .OneOverCm => (1 : ℚ)
      | .OneOverMm => 1 / 10
      | .OneOverDegree => 1
      | .OneOverDev => 1
      | .OneOverHimetric => 1 / 1000
    base * (1 / self.resolution_value)

/-- `context.rs`: a named recording context: an ordered channel list. -/
structure Context where
  name : String
  channel_list : List Channel
deriving DecidableEq, Repr

/-- `impl Default for Context` from `context.rs`. -/
def Context.default : Context :=
  { name := "ctx0"
    channel_list :=
      [{ kind := .X, types := .Integer, resolution_value := 1000, max_value := none
         unit_resolution := .OneOverCm, unit_channel := .cm },
       { kind := .Y, types := .Integer, resolution_value := 1000, max_value := none
         unit_resolution := .OneOverCm, unit_channel := .cm }] }

/-- `Context::default_with_pressure` from `context.rs`. -/
def Context.default_with_pressure : Context :=
  { name := "ctx0"
    channel_list :=
      [{ kind := .X, types := .Integer, resolution_value := 1000, max_value := none
         unit_resolution := .OneOverCm, unit_channel := .cm },
       { kind := .Y, types := .Integer, resolution_value := 1000, max_value := none
         unit_resolution := .OneOverCm, unit_channel := .cm },
       { kind := .F, types := .Integer, resolution_value := 0
         max_value := some (.Integer 32767)
         unit_resolution := .OneOverDev, unit_channel := .dev }] }

/-- `Context::create_empty` from `context.rs`. -/
def Context.create_empty (name : String) : Context :=
  { name := name, channel_list := [] }

/-- `Context::channel_exists` from `context.rs`: index of the first channel
of the given kind. -/
def Context.channel_exists (self : Context) (channel_kind : ChannelKind) : Option Nat :=
  (self.channel_list.enum.find? (fun x => x.2.kind = channel_kind)).map (·.1)

/-- `brushes.rs`: a brush descriptor. The field is named `stroke_width` in
`brushes.rs` and referred to as `stroke_width_cm` from `parser.rs`; the model
uses the latter name throughout. Color components and transparency are `u8`
values, kept as `Nat` (all writes are in range by construction). -/
structure Brush where
  name : String
  color : Nat × Nat × Nat
  stroke_width_cm : ℚ
  ignorepressure : Bool
  transparency : Nat
deriving DecidableEq, Repr

/-- `Brush::init_brush_with_id` from `brushes.rs`. -/
def Brush.init_brush_with_id (id : String) : Brush :=
  { name := id, color := (0, 0, 0), stroke_width_cm := 0
    transparency := 0, ignorepressure := false }

/-- `Brush::init` from `brushes.rs`. -/
def Brush.init (name : String) (color : Nat × Nat × Nat) (ignorepressure : Bool)
    (transparency : Nat) (stroke_width : ℚ) : Brush :=
  { name := name, color := color, stroke_width_cm := stroke_width
    transparency := transparency, ignorepressure := ignorepressure }

/-- `PositiveFiniteFloat` from `brushes.rs`: a stroke width with total
(bit-pattern) equality; in the rational model every value is finite, so
`new` is the identity on the wrapped value. -/
structure PositiveFiniteFloat where
  stroke_width : ℚ
deriving DecidableEq, Repr

/-- `PositiveFiniteFloat::new` from `brushes.rs` (non-finite inputs collapse
to `0.0` in the source; rationals are always finite). -/
def PositiveFiniteFloat.new (stroke_width : ℚ) : PositiveFiniteFloat :=
  { stroke_width := stroke_width }

/-- `BrushIndex` from `brushes.rs`: the semantic deduplication key. -/
def BrushIndex : Type :=
  (Nat × Nat × Nat) × PositiveFiniteFloat × Bool × Nat
deriving instance DecidableEq for BrushIndex

/-- The semantic key `add_brush` builds from a brush (`brushes.rs`). -/
def Brush.semanticKey (brush : Brush) : BrushIndex :=
  (brush.color, PositiveFiniteFloat.new brush.stroke_width_cm,
    brush.ignorepressure, brush.transparency)

/-- Association-list lookup, the model of `HashMap::get`. -/
def mapGet {α β : Type} [DecidableEq α] (l : List (α × β)) (k : α) : Option β :=
  (l.find? (fun p => p.1 = k)).map (·.2)

/-- The model of `HashMap::contains_key`. -/
def mapContains {α β : Type} [DecidableEq α] (l : List (α × β)) (k : α) : Bool :=
  (mapGet l k).isSome

/-- The model of `HashMap::insert`: replace the entry when the key is
present, append otherwise. -/
def mapInsert {α β : Type} [DecidableEq α] (l : List (α × β)) (k : α) (v : β) :
    List (α × β) :=
  if mapContains l k then
    l.map (fun p => if p.1 = k then (k, v) else p)
  else
    l ++ [(k, v)]

/-- `brushes.rs`: the brush deduplication collection. -/
structure BrushCollection where
  brushes : List (String × Brush)
  duplicate_search : List (BrushIndex × String)
  mapping : List String
deriving DecidableEq

/-- `impl Default for BrushCollection` (derived in `brushes.rs`). -/
def BrushCollection.default : BrushCollection :=
  { brushes := [], duplicate_search := [], mapping := [] }

/-- `BrushCollection::add_brush` from `brushes.rs`. -/
def BrushCollection.add_brush (self : BrushCollection) (brush : Brush) :
    BrushCollection :=
  let duplicate_key := brush.semanticKey
  match mapGet self.duplicate_search duplicate_key with
  | none =>
    let id := "br" ++ toString (self.brushes.length + 1)
    { brushes := mapInsert self.brushes id { brush with name := id }
      duplicate_search := mapInsert self.duplicate_search duplicate_key id
      mapping := self.mapping ++ [id] }
  | some id =>
    { self with mapping := self.mapping ++ [id] }

/-- `xml_helpers.rs`: an XML attribute, already resolved to its local name
(left) and value (right). -/
abbrev OwnedAttribute : Type := String × String

/-- `get_id` from `xml_helpers.rs`: first attribute with the given local
name. -/
def get_id (attributes : List OwnedAttribute) (match_string : String) : Option String :=
  ((attributes.filter (fun x => x.1 = match_string)).map (·.2)).head?

/-- `get_ids` from `xml_helpers.rs`: the requested attributes, in request
order. -/
def get_ids (attributes : List OwnedAttribute) (match_string : List String) :
    List (Option String) :=
  match_string.map (fun x =>
    ((attributes.filter (fun attr => x = attr.1)).map (·.2)).head?)

/-- `verify_channel_properties` from `xml_helpers.rs`. -/
def verify_channel_properties (ids : List (Option String)) : Bool :=
  if ids.all (fun new => new.isSome) then
    match ids.get? 1 with
    | some (some property_name) => property_name = "resolution"
    | _ => false
  else false

/-- Hex value of one digit of a radix-16 literal. -/
def hexVal? (c : Char) : Option Nat :=
  if c.isDigit then some (c.toNat - 48)
  else if 'a' ≤ c ∧ c ≤ 'f' then some (c.toNat - 87)
  else if 'A' ≤ c ∧ c ≤ 'F' then some (c.toNat - 55)
  else none

/-- Model of Rust `u8::from_str_radix(s, 16)`: optional `+`, one or more hex
digits, value below `256`. -/
def fromStrRadix16U8 (s : String) : Except String Nat :=
  let cs := match s.data with
            | c :: rest => if c = '+' then rest else c :: rest
            | [] => []
  match cs with
  | [] => .error "Failed to parse (empty)"
  | _ =>
    match cs.foldlM (fun a c =>
        match hexVal? c with
        | some d => if a * 16 + d < 256 then some (a * 16 + d) else none
        | none => none) (0 : Nat) with
    | some n => .ok n
    | none => .error "Failed to parse"

/-- `parser.rs`: the relevant constructors of `xml::reader::XmlEvent`.
Attributes carry their local name; the raw XML tokenizer is an external
collaborator, so documents enter the model as event lists. The source's
`_ => {}` arm (start/end document, whitespace, comments, ...) and the
`Err(e)` arm are outside the model: claims quantify over documents the
tokenizer delivers without error. -/
inductive XmlEvent
  | StartElement (name : String) (attributes : List OwnedAttribute)
  | EndElement (name : String)
  | Characters (s : String)
deriving DecidableEq, Repr

/-- `parser.rs`: how the current context was opened. -/
inductive ContextStartElement
  | TraceFormat
  | Context
deriving DecidableEq, Repr

/-- `ParserContext` from `parser.rs`. -/
structure ParserContext where
  is_trace : Bool
  context : List (String × Context)
  current_context_id : Option String
  start_context_element : Option ContextStartElement
  current_brush_id : Option String
  brushes : List (String × Brush)
deriving DecidableEq, Repr

/-- `ParserContext::default()`. -/
def ParserContext.default : ParserContext :=
  { is_trace := false, context := [], current_context_id := none
    start_context_element := none, current_brush_id := none, brushes := [] }

/-- `ParserResult` from `parser.rs`. -/
structure ParserResult where
  context_brush_data_vec : List (String × String × List ChannelData)
  context_dict : List (String × Context)
  context_brush : List (String × Brush)
deriving DecidableEq, Repr

/-- The full mutable state of the `parser` function in `parser.rs`: the
`ParserContext` plus the local `trace_collect` vector. -/
structure PState where
  parser_context : ParserContext
  trace_collect : List (String × String × List ChannelData)
deriving DecidableEq, Repr

/-- `"context"` start-element arm of `parser` (`parser.rs`). -/
def onContextStart (pc : ParserContext) (attributes : List OwnedAttribute) :
    Except String ParserContext :=
  let id_context := (get_id attributes "id").getD "ctx0"
  if ¬ mapContains pc.context id_context then
    .ok { pc with
          context := mapInsert pc.context id_context (Context.create_empty id_context)
          current_context_id := some id_context
          start_context_element := some .Context }
  else
    .error "could not create the context"

/-- `"traceFormat"` start-element arm of `parser` (`parser.rs`). -/
def onTraceFormatStart (pc : ParserContext) : Except String ParserContext :=
  if pc.context.isEmpty then
    .ok { pc with
          context := mapInsert pc.context "ctx0" (Context.create_empty "ctx0")
          current_context_id := some "ctx0"
          start_context_element := some .TraceFormat }
  else
    .ok pc

/-- `"channel"` start-element arm of `parser` (`parser.rs`). -/
def onChannelStart (pc : ParserContext) (attributes : List OwnedAttribute) :
    Except String ParserContext :=
  let ids := get_ids attributes ["name", "type", "units", "max"]
  match pc.current_context_id with
  | some current_context =>
    match mapGet pc.context current_context with
    | none => .error "Could not add the channel to the current context, as it was not found"
    | some ctx => do
      let ch ← Channel.initialise_channel_from_name ids
      .ok { pc with
            context := mapInsert pc.context current_context
              { ctx with channel_list := ctx.channel_list ++ [ch] } }
  | none => .ok pc

/-- `"channelProperty"` start-element arm of `parser` (`parser.rs`); note
the index search keeps the LAST channel of the matching kind (the source
folds with `Some(index)` overriding the accumulator). -/
def onChannelPropertyStart (pc : ParserContext) (attributes : List OwnedAttribute) :
    Except String ParserContext :=
  let ids := get_ids attributes ["channel", "name", "value", "units"]
  if verify_channel_properties ids ∧ pc.current_context_id.isSome
      ∧ mapContains pc.context (pc.current_context_id.getD "") then
    match ids with
    | [channelAttr, _nameAttr, valueAttr, unitsAttr] => do
      let current_key := pc.current_context_id.getD ""
      let current_context := (mapGet pc.context current_key).getD (Context.create_empty "")
      let channel_kind ← ChannelKind.parse channelAttr
      let resolution_units ← ResolutionUnits.parse unitsAttr
      match parseF64 (valueAttr.getD "") with
      | none => .error "ParseFloatError: could not parse the value property to a float"
      | some value =>
        match current_context.channel_list.enum.foldl
            (fun acc x => if x.2.kind = channel_kind then some x.1 else acc) none with
        | none => .error "Could not find the channel in the list."
        | some index =>
          match current_context.channel_list.get? index with
          | none => .error "index out of range"
          | some channel_to_update =>
            .ok { pc with
                  context := mapInsert pc.context current_key
                    { current_context with
                      channel_list := current_context.channel_list.set index
                        { channel_to_update with
                          resolution_value := value
                          unit_resolution := resolution_units } } }
    | _ => .error "index out of bounds"
  else
    .ok pc

/-- `"brush"` start-element arm of `parser` (`parser.rs`). -/
def onBrushStart (pc : ParserContext) (attributes : List OwnedAttribute) :
    Except String ParserContext :=
  let brush_id := (get_id attributes "id").getD "br0"
  let pc := { pc with current_brush_id := some brush_id }
  if mapContains pc.brushes brush_id then
    .error "DuplicateKeyError : We cannot have twice the same brush"
  else
    .ok { pc with brushes := mapInsert pc.brushes brush_id (Brush.init_brush_with_id brush_id) }

/-- `"brushProperty"` start-element arm of `parser` (`parser.rs`). -/
def onBrushPropertyStart (pc : ParserContext) (attributes : List OwnedAttribute) :
    Except String ParserContext :=
  let property_name_opt := get_id attributes "name"
  match pc.current_brush_id with
  | none => .error "Trying to set properties of the current brush but there is no current brush"
  | some key =>
    match mapGet pc.brushes key with
    | none => .error "could not find the current brush using the current key"
    | some current_brush =>
      match property_name_opt with
      | none => .error "No property was given to be changed, empty BrushProperty element"
      | some property_name =>
        if property_name = "width" ∨ property_name = "height" then
          match get_id attributes "units" with
          | none => .error "No unit was found for the brush property"
          | some unit_str =>
            match ChannelUnit.parse (some unit_str) with
            | none => .error "Could not find a ChannelUnit matching"
            | some in_unit =>
              match get_id attributes "value" with
              | none => .error "No value was given to set the property of the brush"
              | some value_str =>
                match parseF64 value_str with
                | none => .error "Could not parse to f64"
                | some value =>
                  match in_unit.convert_to .cm value with
                  | .error e => .error e
                  | .ok stroke_width =>
                    .ok { pc with
                          brushes := mapInsert pc.brushes key
                            { current_brush with
                              stroke_width_cm := max current_brush.stroke_width_cm stroke_width } }
        else if property_name = "color" then
          match get_id attributes "value" with
          | some color_string =>
            if color_string.length = 7 then do
              let r ← fromStrRadix16U8 (String.mk ((color_string.data.drop 1).take 2))
              let g ← fromStrRadix16U8 (String.mk ((color_string.data.drop 3).take 2))
              let b ← fromStrRadix16U8 (String.mk ((color_string.data.drop 5).take 2))
              .ok { pc with
                    brushes := mapInsert pc.brushes key { current_brush with color := (r, g, b) } }
            else
              .error "Unexpected length for the color string, expected 7"
          | none => .error "No color was found in the color property"
        else if property_name = "transparency" then
          match get_id attributes "value" with
          | none => .error "No transparency value was given in the transparency property"
          | some value_str =>
            match parseU16 value_str with
            | none => .error "Failed to parse to an integer"
            | some v =>
              .ok { pc with
                    brushes := mapInsert pc.brushes key
                      { current_brush with transparency := min v 255 } }
        else if property_name = "ignorePressure" then
          match get_id attributes "value" with
          | some bool_str =>
            if bool_str = "1" ∨ bool_str = "true" then
              .ok { pc with
                    brushes := mapInsert pc.brushes key
                      { current_brush with ignorepressure := true } }
            else if bool_str = "0" ∨ bool_str = "false" then
              .ok { pc with
                    brushes := mapInsert pc.brushes key
                      { current_brush with ignorepressure := false } }
            else
              .error "Unexpected value for the boolean, expected 1,0,true of false"
          | none => .error "No value was found to set the transparency"
        else
          .ok pc

/-- `"trace"` start-element arm of `parser` (`parser.rs`): resolve
`contextRef` (default `"ctx0"`, `#` stripped) and `brushRef` (must exist if
given; if absent, defer on zero defined brushes, use the single defined
brush, and fail when the association is ambiguous). -/
def onTraceStart (pc : ParserContext) (attributes : List OwnedAttribute) :
    Except String ParserContext :=
  let pc := { pc with is_trace := true }
  let ids := get_ids attributes ["contextRef", "brushRef"]
  let pc := { pc with
              current_context_id := some
                (match (ids.get? 0).join with
                 | some candidate => candidate.replace "#" ""
                 | none => "ctx0") }
  match (ids.get? 1).join with
  | some candidate_with_hash =>
    let candidate := candidate_with_hash.replace "#" ""
    if ¬ mapContains pc.brushes candidate then
      .error "The trace refers to a Brush but it was not found."
    else
      .ok { pc with current_brush_id := some candidate }
  | none =>
    if pc.brushes.length = 0 then
      .ok { pc with current_brush_id := none }
    else if pc.brushes.length = 1 then
      .ok { pc with current_brush_id := (pc.brushes.head?).map (·.1) }
    else
      .error "Tried to give a default brush to the current trace as no reference was given, But this association was ambiguous"

/-- `"context"` end-element arm of `parser` (`parser.rs`). -/
def onContextEnd (pc : ParserContext) : Except String ParserContext :=
  .ok { pc with current_context_id := none, start_context_element := none }

/-- `"traceFormat"` end-element arm of `parser` (`parser.rs`): the source
clears the current context only when `start_context_element` does NOT hold
`TraceFormat`. -/
def onTraceFormatEnd (pc : ParserContext) : Except String ParserContext :=
  if ¬ (pc.start_context_element = some .TraceFormat) then
    .ok { pc with start_context_element := none, current_context_id := none }
  else
    .ok pc

/-- `"trace"` end-element arm of `parser` (`parser.rs`). -/
def onTraceEnd (pc : ParserContext) : Except String ParserContext :=
  .ok { pc with is_trace := false, current_context_id := none, current_brush_id := none }

/-- `"brush"` end-element arm of `parser` (`parser.rs`): coerce a stroke
width of exactly `0.0` to `0.1` cm, then clear the current brush id. -/
def onBrushEnd (pc : ParserContext) : Except String ParserContext :=
  match pc.current_brush_id with
  | none => .error "Closing element for a brush but it was never opened, malformed file"
  | some current_key =>
    match mapGet pc.brushes current_key with
    | none => .error "Cannot find the brush with its (supposedly) key in the dictionnary"
    | some current_brush =>
      let pc :=
        if current_brush.stroke_width_cm = 0 then
          { pc with
            brushes := mapInsert pc.brushes current_key
              { current_brush with stroke_width_cm := 1 / 10 } }
        else pc
      .ok { pc with current_brush_id := none }

/-- `Characters` arm of `parser` (`parser.rs`): inside a trace, decode the
payload against the current context's channel types, synthesize the default
brush `br0` when no brush exists, and collect the
`(context_id, brush_id, samples)` record. The source's `.unwrap()` on a
missing brush id is an error here. -/
def onCharacters (st : PState) (string_out : String) : Except String PState :=
  if st.parser_context.is_trace then
    match st.parser_context.current_context_id with
    | none => .error "Text data is only expected inside of a trace but no trace was opened"
    | some key =>
      match mapGet st.parser_context.context key with
      | none => .error "Trace data was started but couldn't find its associated context"
      | some current_context => do
        let ch_type_vec := current_context.channel_list.map (·.types)
        let trace_data ← (TraceData.from_channel_types ch_type_vec).parse_raw_data string_out
        let pc := st.parser_context
        let pc :=
          if pc.current_brush_id = none
              ∧ (pc.brushes.isEmpty ∨ mapContains pc.brushes "br0") then
            let pc :=
              if pc.brushes.isEmpty then
                { pc with
                  brushes := mapInsert pc.brushes "br0"
                    (Brush.init "br0" (255, 255, 255) true 0 (1 / 10)) }
              else pc
            { pc with current_brush_id := some "br0" }
          else pc
        match pc.current_context_id, pc.current_brush_id with
        | some ctx_id, some brush_id =>
          .ok { parser_context := { pc with current_brush_id := none, current_context_id := none }
                trace_collect := st.trace_collect ++ [(ctx_id, brush_id, trace_data.data)] }
        | _, _ => .error "panic: called unwrap on a None value"
  else
    .ok st

/-- One step of the event loop of `parser` (`parser.rs`): dispatch an XML
event to the matching arm; unrecognized element names leave the state
unchanged. -/
def processEvent (st : PState) (ev : XmlEvent) : Except String PState :=
  match ev with
  | .StartElement name attributes =>
    let lift : Except String ParserContext → Except String PState :=
      fun r => r.map (fun pc => { st with parser_context := pc })
    if name = "context" then lift (onContextStart st.parser_context attributes)
    else if name = "inkSource" then .ok st
    else if name = "traceFormat" then lift (onTraceFormatStart st.parser_context)
    else if name = "channel" then lift (onChannelStart st.parser_context attributes)
    else if name = "channelProperties" then .ok st
    else if name = "channelProperty" then lift (onChannelPropertyStart st.parser_context attributes)
    else if name = "brush" then lift (onBrushStart st.parser_context attributes)
    else if name = "brushProperty" then lift (onBrushPropertyStart st.parser_context attributes)
    else if name = "trace" then lift (onTraceStart st.parser_context attributes)
    else .ok st
  | .EndElement name =>
    let lift : Except String ParserContext → Except String PState :=
      fun r => r.map (fun pc => { st with parser_context := pc })
    if name = "definitions" then .ok st
    else if name = "context" then lift (onContextEnd st.parser_context)
    else if name = "inkSource" then .ok st
    else if name = "traceFormat" then lift (onTraceFormatEnd st.parser_context)
    else if name = "channelProperties" then .ok st
    else if name = "trace" then lift (onTraceEnd st.parser_context)
    else if name = "brush" then lift (onBrushEnd st.parser_context)
    else .ok st
  | .Characters string_out => onCharacters st string_out

/-- The event loop of `parser` (`parser.rs`). -/
def processEvents (st : PState) (events : List XmlEvent) : Except String PState :=
  events.foldlM processEvent st

/-- `parser` from `parser.rs`: run the event loop from the default state and
package the `ParserResult`. -/
def parser (events : List XmlEvent) : Except String ParserResult :=
  (processEvents { parser_context := ParserContext.default, trace_collect := [] } events).map
    (fun st =>
      { context_brush_data_vec := st.trace_collect
        context_dict := st.parser_context.context
        context_brush := st.parser_context.brushes })

/-- `parse_formatted` from `parser.rs`: canonicalize every collected trace
record. The source computes `y_ratio` from the channel at `x_idx` (not
`y_idx`); the model mirrors that line verbatim. -/
def parse_formatted (events : List XmlEvent) :
    Except String (List (FormattedStroke × Brush)) := do
  let pres ← parser events
  pres.context_brush_data_vec.foldlM
    (fun formatted_result t => do
      let (context_str, brush_str, stroke) := t
      let context ←
        match mapGet pres.context_dict context_str with
        | some c => Except.ok c
        | none => Except.error "Could not find the context"
      let brush ←
        match mapGet pres.context_brush brush_str with
        | some b => Except.ok b
        | none => Except.error "Could not find the brush"
      let x_idx := context.channel_exists .X
      let y_idx := context.channel_exists .Y
      let f_idx := context.channel_exists .F
      match x_idx, y_idx with
      | some xi, some yi => do
        let x_scaling ←
          match context.channel_list.get? xi with
          | some c => Except.ok c.get_scaling
          | none => Except.error "panic: called unwrap on a None value"
        -- the y scaling is read from the channel at x_idx, as in the source
        let y_scaling ←
          match context.channel_list.get? xi with
          | some c => Except.ok c.get_scaling
          | none => Except.error "panic: called unwrap on a None value"
        let xdata ←
          match stroke.get? xi with
          | some d => Except.ok d
          | none => Except.error "panic: called unwrap on a None value"
        let ydata ←
          match stroke.get? yi with
          | some d => Except.ok d
          | none => Except.error "panic: called unwrap on a None value"
        let f ←
          match f_idx with
          | some fi => do
            let f_scaling ←
              match context.channel_list.get? fi with
              | some c => Except.ok c.get_scaling
              | none => Except.error "panic: called unwrap on a None value"
            let fdata ←
              match stroke.get? fi with
              | some d => Except.ok d
              | none => Except.error "panic: called unwrap on a None value"
            Except.ok (fdata.cast_to_float f_scaling)
          | none =>
            Except.ok ((xdata.cast_to_float 1).map (fun _ => (1 : ℚ)))
        .ok (formatted_result ++
          [({ x := xdata.cast_to_float x_scaling
              y := ydata.cast_to_float y_scaling
              f := f }, brush)])
      | _, _ => .ok formatted_result)
    []

/-- Rust `{}` (Display) rendering of an `f64`, modelled on `ℚ` for the
integral values the emitter actually renders (Rust prints `2` for `2.0`). -/
def displayF64 (q : ℚ) : String :=
  if q.den = 1 then toString q.num else toString q

/-- Rust `{:?}` (Debug) rendering of an `f64`, modelled on `ℚ` for the
integral values the emitter actually renders (Rust prints `1000.0`). -/
def debugF64 (q : ℚ) : String :=
  if q.den = 1 then toString q.num ++ ".0" else toString q

/-- One uppercase hex digit. -/
def hexDigitChar (n : Nat) : Char :=
  if n < 10 then Char.ofNat (48 + n) else Char.ofNat (55 + n)

/-- Two-digit uppercase hex rendering of a byte (`{:02X}`). -/
def hexByteString (n : Nat) : String :=
  String.mk [hexDigitChar (n / 16 % 16), hexDigitChar (n % 16)]

/-- The `#RRGGBB` rendering used by `Brush::write` (`brushes.rs`). -/
def colorHexString (c : Nat × Nat × Nat) : String :=
  "#" ++ hexByteString c.1 ++ hexByteString c.2.1 ++ hexByteString c.2.2

/-- `xml::writer::XmlEvent`, the events handed to the XML emitter (an
external collaborator): the byte-level serializer is outside the model, so
emitter output is modelled as the list of writer events. -/
inductive WXmlEvent
  | start_element (name : String) (attributes : List (String × String))
  | characters (s : String)
  | end_element
deriving DecidableEq, Repr

/-- `impl Writable for Context` (`context.rs`): the writer-event sequence
for a context block. -/
def Context.write (self : Context) : List WXmlEvent :=
  [.start_element "context" [("xml:id", self.name)],
   .start_element "inkSource" [("xml:id", "inkSrc0")],
   .start_element "traceFormat" []]
  ++ (self.channel_list.map (fun channel =>
       if channel.max_value.isSome then
         [WXmlEvent.start_element "channel"
            [("name", channel.kind.toDisplayString),
             ("type", channel.types.toDisplayString),
             ("max", ((channel.max_value.getD .Bool).toDisplayString)),
             ("unit", channel.unit_channel.toDisplayString)],
          WXmlEvent.end_element]
       else
         [WXmlEvent.start_element "channel"
            [("name", channel.kind.toDisplayString),
             ("type", channel.types.toDisplayString),
             ("unit", channel.unit_channel.toDisplayString)],
          WXmlEvent.end_element])).flatten
  ++ [.end_element,
      .start_element "channelProperties" []]
  ++ (self.channel_list.map (fun channel =>
       [WXmlEvent.start_element "channelProperty"
          [("channel", channel.kind.toDisplayString),
           ("name", "resolution"),
           ("value", debugF64 channel.resolution_value),
           ("units", channel.unit_resolution.toDisplayString)],
        WXmlEvent.end_element])).flatten
  ++ [.end_element, .end_element, .end_element]

/-- `impl Writable for Brush` (`brushes.rs`): the writer-event sequence for
one brush definition (`width`/`height` emitted as `stroke_width * 10`,
`transparency` only when positive and the color is not black,
`ignorePressure` only when set). -/
def Brush.write (self : Brush) : List WXmlEvent :=
  [.start_element "brush" [("xml:id", self.name)],
   .start_element "brushProperty"
     [("name", "width"), ("value", displayF64 (self.stroke_width_cm * 10)), ("units", "cm")],
   .end_element,
   .start_element "brushProperty"
     [("name", "height"), ("value", displayF64 (self.stroke_width_cm * 10)), ("units", "cm")],
   .end_element,
   .start_element "brushProperty"
     [("name", "color"), ("value", colorHexString self.color)],
   .end_element]
  ++ (if 0 < self.transparency ∧ self.color ≠ (0, 0, 0) then
       [WXmlEvent.start_element "brushProperty"
          [("name", "transparency"), ("value", toString self.transparency)],
        WXmlEvent.end_element]
      else [])
  ++ (if self.ignorepressure then
       [WXmlEvent.start_element "brushProperty"
          [("name", "ignorePressure"), ("value", "1")],
        WXmlEvent.end_element]
      else [])
  ++ [.end_element]

/-- `writer` from `writer.rs`: the full writer-event sequence the emitter
produces. The function takes NO stroke input in the source; it writes the
default context, one fixed brush `br1` (color `(255,255,12)`, transparency
`125`, width `0.2`), and exactly one trace. Two pieces are abstracted as
parameters because they cannot be evaluated from the sources:
`pressure_channel_exist` models the call to `Context::pressure_channel_exist`
(a method not defined anywhere in `src/`), and `positions_chardata` models
the sine-wave payload string computed with `f32` trigonometry. -/
def writer (pressure_channel_exist : Bool) (positions_chardata : String) :
    List WXmlEvent :=
  [.start_element "ink" [("xmlns", "http://www.w3.org/2003/InkML")],
   .start_element "definitions" []]
  ++ Context.default.write
  ++ (Brush.init "br1" (255, 255, 12) (¬ pressure_channel_exist) 125 (2 / 10)).write
  ++ [.end_element]
  ++ [.start_element "trace" [("contextRef", "#ctx0"), ("brushRef", "#br1")],
      .characters positions_chardata,
      .end_element,
      .end_element]

/-- Number of `start_element` events with the given name in a writer-event
list. -/
def countElements (name : String) (events : List WXmlEvent) : Nat :=
  (events.filter (fun e =>
    match e with
    | .start_element n _ => n = name
    | _ => false)).length

/-- The `brushRef` attribute values of the `trace` elements of a
writer-event list, in order. -/
def traceBrushRefs (events : List WXmlEvent) : List (Option String) :=
  (events.filterMap (fun e =>
    match e with
    | .start_element n attrs => if n = "trace" then some attrs else none
    | _ => none)).map (fun attrs => get_id attrs "brushRef")

/-- A well-formed XML fragment, used to quantify over the event streams the
tokenizer can actually deliver for a complete document: an element with
attributes and children, or character data. -/
inductive XmlNode
  | elem (name : String) (attributes : List OwnedAttribute) (children : List XmlNode)
  | text (s : String)
deriving Repr

mutual

/-- The event stream of one well-formed XML node. -/
def XmlNode.events : XmlNode → List XmlEvent
  | .elem name attributes children =>
    XmlEvent.StartElement name attributes :: XmlNode.eventsList children
      ++ [XmlEvent.EndElement name]
  | .text s => [.Characters s]

/-- The event stream of a sequence of well-formed XML nodes. -/
def XmlNode.eventsList : List XmlNode → List XmlEvent
  | [] => []
  | x :: xs => x.events ++ XmlNode.eventsList xs

end

/-- `"{a} {b} {c}"` rendering of one sample triple under the source's
truncating casts, without the trailing comma. -/
def FormattedStroke.sampleRender (xyf : (ℚ × ℚ) × ℚ) : String :=
  toString (castF64ToI64 (xyf.1.1 * 1000)) ++ " " ++
    toString (castF64ToI64 (xyf.1.2 * 1000)) ++ " " ++
    toString (castF64ToU64 (xyf.2 * 32767))

/-- Join strings with `,` and no trailing comma. -/
def joinComma : List String → String
  | [] => ""
  | [s] => s
  | s :: rest => s ++ "," ++ joinComma rest

/-- The chardata C4 claims, following the spec's words: each sample triple
rendered as `round(x*1000) round(y*1000) round(f*32767)`, samples joined by
`,` with no trailing comma (kept `none` on an empty stroke so that the two
renderings differ only in the rounding mode). -/
def FormattedStroke.specChardataRound (s : FormattedStroke) : Option String :=
  let samples := (s.x.zip s.y).zip s.f
  if samples = [] then none
  else some (joinComma (samples.map (fun xyf =>
    toString (round (xyf.1.1 * 1000)) ++ " " ++
      toString (round (xyf.1.2 * 1000)) ++ " " ++
      toString (round (xyf.2 * 32767)))))

/-- Every brush registered in a parser state has a non-negative stroke
width. -/
def brushesNonNeg (pc : ParserContext) : Prop :=
  ∀ p ∈ pc.brushes, (0 : ℚ) ≤ p.2.stroke_width_cm

/-- Key `k` owns a zero-width brush entry in the parser state. -/
def hasZeroWidth (pc : ParserContext) (k : String) : Prop :=
  ∃ b, (k, b) ∈ pc.brushes ∧ b.stroke_width_cm = 0

/-- The brush map's keys are pairwise distinct (true of every state the
parser reaches, mirroring `HashMap` key uniqueness). -/
def brushKeysNodup (pc : ParserContext) : Prop :=
  (pc.brushes.map Prod.fst).Nodup

/-- The conjunction of the parser-state facts carried through the event
induction for the stroke-width invariant. -/
def BrushInv (pc : ParserContext) : Prop :=
  brushesNonNeg pc ∧ brushKeysNodup pc

/-- A brush collection reached by running `add_brush` over a list of
brushes starting from the derived `Default` (the only constructors the
source exposes). -/
def BrushCollection.ofAdds (bs : List Brush) : BrushCollection :=
  bs.foldl BrushCollection.add_brush BrushCollection.default

/-- The structural invariant of every reachable `BrushCollection`: brush ids
are `br1 .. brn` in insertion order, each brush entry is indexed in
`duplicate_search` under its semantic key, each index entry resolves to a
brush entry with that key, and index keys are pairwise distinct. -/
def BrushCollection.Inv (c : BrushCollection) : Prop :=
  c.brushes.map Prod.fst
      = (List.range c.brushes.length).map (fun k => "br" ++ Nat.repr (k + 1))
    ∧ (∀ p ∈ c.brushes, mapGet c.duplicate_search p.2.semanticKey = some p.1)
    ∧ (∀ q ∈ c.duplicate_search, ∃ br, mapGet c.brushes q.2 = some br ∧ br.semanticKey = q.1)
    ∧ (c.duplicate_search.map Prod.fst).Nodup

/-- Decimal value of a digit-character list (used to invert `Nat.repr`). -/
def valDigits (cs : List Char) : Nat :=
  cs.foldl (fun a c => 10 * a + (c.toNat - 48)) 0

/-- Concrete document for the canonicalizer claims: a synthesized `ctx0`
whose X channel has resolution `1000` (1/cm) and whose Y channel has
resolution `500` (1/cm), and one trace with raw samples `(1000, 1000)`. -/
def docXY : List XmlEvent :=
  [.StartElement "ink" [],
   .StartElement "definitions" [],
   .StartElement "traceFormat" [],
   .StartElement "channel" [("name", "X"), ("type", "integer")],
   .EndElement "channel",
   .StartElement "channel" [("name", "Y"), ("type", "integer")],
   .EndElement "channel",
   .EndElement "traceFormat",
   .StartElement "channelProperties" [],
   .StartElement "channelProperty"
     [("channel", "X"), ("name", "resolution"), ("value", "1000"), ("units", "1/cm")],
   .EndElement "channelProperty",
   .StartElement "channelProperty"
     [("channel", "Y"), ("name", "resolution"), ("value", "500"), ("units", "1/cm")],
   .EndElement "channelProperty",
   .EndElement "channelProperties",
   .EndElement "definitions",
   .StartElement "trace" [],
   .Characters "1000 1000",
   .EndElement "trace",
   .EndElement "ink"]

/-- The stroke `parse_formatted` returns for `docXY`. -/
def strokeXY : FormattedStroke :=
  { x := [1], y := [1], f := [1] }

/-- The default brush synthesized for a trace when no brush is defined. -/
def defaultBr0 : Brush :=
  Brush.init "br0" (255, 255, 255) true 0 (1 / 10)

/-- A parser state holding exactly two defined brushes (used to instantiate
the ambiguous-brush theorem). -/
def twoBrushState : PState :=
  { parser_context :=
      { ParserContext.default with
        brushes := [("b1", Brush.init_brush_with_id "b1"),
                    ("b2", Brush.init_brush_with_id "b2")] }
    trace_collect := [] }

/-- A parser state holding exactly one defined brush. -/
def oneBrushState : PState :=
  { parser_context :=
      { ParserContext.default with brushes := [("b1", Brush.init_brush_with_id "b1")] }
    trace_collect := [] }

/-- The initial parser state. -/
def initialPState : PState :=
  { parser_context := ParserContext.default, trace_collect := [] }

/-- Concrete well-formed document for the stroke-width witness: one brush
with only a color property (so its width is still `0.0` at `</brush>`). -/
def docBrushNoWidth : List XmlNode :=
  [.elem "ink" []
    [.elem "definitions" []
      [.elem "brush" [("id", "b1")]
        [.elem "brushProperty" [("name", "color"), ("value", "#FF8040")] []]]]]

/-- The concrete `ParserResult` the parser returns for `docBrushNoWidth`
(the zero width left at `</brush>` has been bumped to `0.1`). -/
def resBrushNoWidth : ParserResult :=
  { context_brush_data_vec := []
    context_dict := []
    context_brush := [("b1", Brush.init "b1" (255, 128, 64) false 0 (1 / 10))] }

/-- The brush-map part of a parser-state transition is safe: it preserves
the carried invariant and introduces no new zero-width brush key. -/
def SafeStep (pc pc' : ParserContext) : Prop :=
  BrushInv pc → BrushInv pc' ∧ ∀ k, hasZeroWidth pc' k → hasZeroWidth pc k

/-- What processing one complete well-formed XML node does to the brush
state: a safe step that leaves the current brush id unchanged or cleared. -/
def NodePost (pc pc' : ParserContext) : Prop :=
  SafeStep pc pc' ∧
    (pc'.current_brush_id = pc.current_brush_id ∨ pc'.current_brush_id = none)

/-- C8 (counterexample): the claim "`convert_to` is the identity on every
equal pair of units including `himetric`" fails: `himetric → himetric` has
no arm in the conversion table and falls through to the error case at the
concrete input `v = 1`. -/
theorem convert_to_himetric_himetric_fails :
    ChannelUnit.himetric.convert_to ChannelUnit.himetric 1 =
      .error "Could not convert. Is the conversion valid ?" := rfl

/-- C8 (amended): `convert_to` is the identity on the equal pairs of the
five units `mm`, `cm`, `m`, `deg`, `dev`; the equal pair on `himetric` is
not in the table and fails with the incompatible-units error. -/
theorem convert_to_identity_on_equal_pairs_except_himetric (v : ℚ) :
    ChannelUnit.mm.convert_to ChannelUnit.mm v = .ok v ∧
    ChannelUnit.cm.convert_to ChannelUnit.cm v = .ok v ∧
    ChannelUnit.m.convert_to ChannelUnit.m v = .ok v ∧
    ChannelUnit.deg.convert_to ChannelUnit.deg v = .ok v ∧
    ChannelUnit.dev.convert_to ChannelUnit.dev v = .ok v ∧
    ChannelUnit.himetric.convert_to ChannelUnit.himetric v =
      .error "Could not convert. Is the conversion valid ?" :=
  ⟨rfl, rfl, rfl, rfl, rfl, rfl⟩

set_option maxRecDepth 100000 in
/-- C1: evaluating the canonicalizer at `docXY`, whose Y channel has
resolution `500` while the X channel has resolution `1000`: the raw Y
column `[1000]` is returned as `y = [1]`, i.e. scaled by the X channel's
factor `1/1000`, even though the Y channel's own `get_scaling` is `1/500`
and would give `[2]` — `parse_formatted` reads `y_ratio` from the channel
at `x_idx`. -/
theorem parse_formatted_scales_y_by_x_channel_on_docXY :
    parse_formatted docXY = .ok [(strokeXY, defaultBr0)] ∧
    (parser docXY).map (fun r => (mapGet r.context_dict "ctx0").map
        (fun c => c.channel_list.map Channel.get_scaling)) =
      .ok (some [1 / 1000, 1 / 500]) ∧
    (parser docXY).map (fun r => r.context_brush_data_vec.map (fun t => t.2.2)) =
      .ok [[ChannelData.Integer [1000], ChannelData.Integer [1000]]] ∧
    ChannelData.cast_to_float (.Integer [1000]) (1 / 500) = [2] ∧
    strokeXY.y = [1] ∧ (1 : ℚ) ≠ 2 :=
  ⟨by with_unfolding_all rfl, by with_unfolding_all rfl, by with_unfolding_all rfl,
    by with_unfolding_all rfl, rfl, by norm_num⟩

/-- C10: a `channel` element whose `name` and `type` parse but whose `max`
attribute is unparseable for the channel's type (or is given on a boolean
channel) still initialises: the channel is built with `max_value = none`,
and its scaling is the resolution-based formula (base ratio of the kind's
default resolution unit divided by the default resolution `1000`). -/
theorem channel_init_with_unparseable_max (nameStr typeStr maxStr : String)
    (unitOpt : Option String) (kind : ChannelKind) (types : ChannelType)
    (hkind : ChannelKind.parse (some nameStr) = .ok kind)
    (htype : ChannelType.parse (some typeStr) = .ok types)
    (hIntMax : types = .Integer → parseI64 maxStr = none)
    (hFloatMax : types = .Decimal ∨ types = .Double → parseF64 maxStr = none) :
    ∃ ch, Channel.initialise_channel_from_name
        [some nameStr, some typeStr, unitOpt, some maxStr] = .ok ch
      ∧ ch.max_value = none
      ∧ ch.get_scaling =
          (match kind.get_default_resolution_unit with
           | .OneOverCm => (1 : ℚ)
           | .OneOverMm => 1 / 10
           | .OneOverDegree => 1
           | .OneOverDev => 1
           | .OneOverHimetric => 1 / 1000) * (1 / 1000) := by
  have hmax : types.get_max_value (some maxStr) = none := by
    cases types with
    | Integer => simp [ChannelType.get_max_value, hIntMax rfl]
    | Decimal => simp [ChannelType.get_max_value, hFloatMax (Or.inl rfl)]
    | Double => simp [ChannelType.get_max_value, hFloatMax (Or.inr rfl)]
    | Bool => simp [ChannelType.get_max_value]
  refine ⟨{ kind := kind, types := types, resolution_value := 1000, max_value := none
            unit_resolution := kind.get_default_resolution_unit
            unit_channel := (ChannelUnit.parse unitOpt).getD kind.get_default_unit },
    ?_, rfl, ?_⟩
  · simp only [Channel.initialise_channel_from_name, hkind, htype]
    show Except.ok (Channel.mk kind types 1000 (types.get_max_value (some maxStr))
          kind.get_default_resolution_unit
          ((ChannelUnit.parse unitOpt).getD kind.get_default_unit)) = _
    rw [hmax]
  · cases h : kind.get_default_resolution_unit <;>
      simp [Channel.get_scaling, h]

/-- C10 witness: the theorem applied at a concrete `F`/`integer` channel
with the non-numeric `max` string `"abc"`. -/
theorem channel_init_with_unparseable_max_witness :
    ∃ ch, Channel.initialise_channel_from_name
        [some "F", some "integer", none, some "abc"] = .ok ch
      ∧ ch.max_value = none
      ∧ ch.get_scaling =
          (match ChannelKind.F.get_default_resolution_unit with
           | .OneOverCm => (1 : ℚ)
           | .OneOverMm => 1 / 10
           | .OneOverDegree => 1
           | .OneOverDev => 1
           | .OneOverHimetric => 1 / 1000) * (1 / 1000) :=
  channel_init_with_unparseable_max "F" "integer" "abc" none .F .Integer rfl rfl
    (fun _ => rfl) (fun _ => rfl)

/-- C4 (counterexample): the claim "samples are rendered with `round`"
fails at the stroke `x = [2⁻¹⁰], y = [0], f = [1/2]` (all three values and
the products `2⁻¹⁰·1000 = 125/128` and `(1/2)·32767 = 16383.5` are exactly
representable in `f64`): the source's `as`-casts truncate, producing
`"0 0 16383"`, while rounding as claimed would produce `"1 0 16384"`. -/
theorem writeChardata_truncates_not_rounds :
    FormattedStroke.writeChardata { x := [1 / 1024], y := [0], f := [1 / 2] } =
        some "0 0 16383" ∧
    FormattedStroke.specChardataRound { x := [1 / 1024], y := [0], f := [1 / 2] } =
        some "1 0 16384" ∧
    FormattedStroke.writeChardata { x := [1 / 1024], y := [0], f := [1 / 2] } ≠
      FormattedStroke.specChardataRound { x := [1 / 1024], y := [0], f := [1 / 2] } := by
  refine ⟨?_, ?_, ?_⟩
  · with_unfolding_all rfl
  · with_unfolding_all rfl
  · intro h
    rw [show FormattedStroke.writeChardata { x := [1 / 1024], y := [0], f := [1 / 2] } =
          some "0 0 16383" from by with_unfolding_all rfl,
        show FormattedStroke.specChardataRound { x := [1 / 1024], y := [0], f := [1 / 2] } =
          some "1 0 16384" from by with_unfolding_all rfl] at h
    simp at h

/-- `String` append concatenates the character lists. -/
theorem string_data_append (a b : String) : (a ++ b).data = a.data ++ b.data := rfl

/-- The character list of the string literal `","`. -/
theorem comma_data : ("," : String).data = [','] := rfl

/-- One emitted sample chunk is the comma-free rendering plus a trailing
comma. -/
theorem sampleChunk_data (p : (ℚ × ℚ) × ℚ) :
    (FormattedStroke.sampleChunk p).data = (FormattedStroke.sampleRender p).data ++ [','] := by
  simp only [FormattedStroke.sampleChunk, FormattedStroke.sampleRender, string_data_append,
    comma_data, List.append_assoc]

/-- The fold inside `FormattedStroke::write` concatenates the per-sample
chunks after the accumulator. -/
theorem fold_sampleChunk_data (l : List ((ℚ × ℚ) × ℚ)) : ∀ acc : String,
    (l.foldl (fun a p => a ++ FormattedStroke.sampleChunk p) acc).data
      = acc.data ++ (l.map (fun p => (FormattedStroke.sampleChunk p).data)).flatten := by
  induction l with
  | nil => intro acc; simp
  | cons a t ih =>
    intro acc
    simp only [List.foldl_cons, List.map_cons, List.flatten_cons, ih, string_data_append,
      List.append_assoc]

/-- Joining the comma-free sample renderings with `,` and appending one
final comma yields the concatenation of the emitted chunks. -/
theorem joinComma_sampleRender_data (l : List ((ℚ × ℚ) × ℚ)) (hl : l ≠ []) :
    (joinComma (l.map FormattedStroke.sampleRender)).data ++ [','] =
      (l.map (fun p => (FormattedStroke.sampleChunk p).data)).flatten := by
  induction l with
  | nil => exact absurd rfl hl
  | cons a t ih =>
    cases t with
    | nil => simp [joinComma, sampleChunk_data]
    | cons b t2 =>
      have ihbt := ih (by simp)
      simp only [List.map_cons, joinComma, List.flatten_cons] at ihbt ⊢
      rw [string_data_append, string_data_append, comma_data]
      rw [List.append_assoc, List.append_assoc, ihbt, sampleChunk_data a]
      simp [List.append_assoc]

/-- C4 (amended): `FormattedStroke::write` renders each zipped sample
triple `(x, y, f)` as the integers `trunc(x·1000)`, `trunc(y·1000)`
(truncation toward zero, saturated to `i64`) and `trunc(f·32767)`
(saturated to `u64`, negatives collapsing to zero), space-separated, with
samples joined by `,` and no trailing comma; an empty sample list panics in
the source (`none` here). -/
theorem writeChardata_joins_truncated_samples (s : FormattedStroke) :
    s.writeChardata =
      if ((s.x.zip s.y).zip s.f) = [] then none
      else some (joinComma (((s.x.zip s.y).zip s.f).map FormattedStroke.sampleRender)) := by
  unfold FormattedStroke.writeChardata
  cases hl : (s.x.zip s.y).zip s.f with
  | nil => simp
  | cons a t =>
    have hdata := fold_sampleChunk_data (a :: t) ""
    have hjoin := joinComma_sampleRender_data (a :: t) (by simp)
    set string_out := (a :: t).foldl (fun acc p => acc ++ FormattedStroke.sampleChunk p) ""
    have hdata2 : string_out.data = (joinComma ((a :: t).map FormattedStroke.sampleRender)).data ++ [','] := by
      rw [hdata, hjoin]; rfl
    have hlen : string_out.length = (joinComma ((a :: t).map FormattedStroke.sampleRender)).data.length + 1 := by
      show string_out.data.length = _
      rw [hdata2]; simp
    have hne : string_out.length ≠ 0 := by omega
    rw [if_neg hne, if_neg (show ¬(a :: t = []) by simp)]
    congr 1
    apply String.ext
    rw [String.data_take, hdata2, hlen, Nat.add_sub_cancel]
    exact List.take_left _ _

/-- C5 (counterexample): the claim "a trailing whitespace-only remainder is
ignored and the parse succeeds" fails at the concrete payload `"0 0 0,"`
against three integer columns: the empty segment after the comma is rejected
with the truncated-segment error. -/
theorem parse_raw_data_trailing_comma_errors :
    (TraceData.from_channel_types [.Integer, .Integer, .Integer]).parse_raw_data "0 0 0," =
      .error "Unexpected end. Expected more data before the end of the current trace" := by
  with_unfolding_all rfl

/-- The value loop fails on a whitespace-only remainder when columns are
still missing. -/
theorem traceLoop_whitespace_err (cs : List Char) (h : ∀ c ∈ cs, isSpaceLike c)
    (st : TraceData) (hfound : st.is_value_found = false)
    (hidx : st.index_channel < st.last_value_modifiers.length) :
    ∃ msg, st.traceLoop cs = .error msg := by
  induction cs generalizing st with
  | nil =>
    refine ⟨"Unexpected end. Expected more data before the end of the current trace", ?_⟩
    rw [TraceData.traceLoop]
    simp [hidx, hfound]
  | cons c rest ih =>
    have hc : isSpaceLike c := h c (List.mem_cons_self c rest)
    have hstep : st.handleChar c = .ok st := by
      simp [TraceData.handleChar, hc, hfound]
    rw [TraceData.traceLoop]
    simp only [hidx, if_pos, hstep]
    exact ih (fun c hm => h c (List.mem_cons_of_mem _ hm)) st hfound hidx

/-- One whitespace-only comma-separated segment always makes `parseSegment`
fail: with no channels the modifier lookup fails, otherwise the value loop
runs out of characters before the first column value. -/
theorem parseSegment_whitespace_err (st : TraceData) (line : String)
    (h : ∀ c ∈ line.data, isSpaceLike c) :
    ∃ msg, st.parseSegment line = .error msg := by
  have hrw : st.parseSegment line =
      (match st.last_value_modifiers.get? 0 with
       | none => Except.error ""
       | some m =>
         ({st with index_channel := 0, is_value_found := false, new_modifier := m} :
             TraceData).traceLoop line.data >>= fun p =>
           if p.2.all isSpaceLike then Except.ok p.1
           else Except.error "char not expected, we only expected space-like elements") := rfl
  rw [hrw]
  cases hget : st.last_value_modifiers.get? 0 with
  | none => exact ⟨"", by simp only [hget]⟩
  | some m =>
    have hlen : 0 < st.last_value_modifiers.length := by
      rcases List.get?_eq_some.mp hget with ⟨hlt, _⟩
      exact hlt
    obtain ⟨msg, hmsg⟩ := traceLoop_whitespace_err line.data h
      { st with index_channel := 0, is_value_found := false, new_modifier := m }
      rfl (by simpa using hlen)
    refine ⟨msg, ?_⟩
    simp only [hget, hmsg]
    rfl

/-- C5 (amended): a payload whose final comma-separated remainder is
whitespace-only (in particular one left by a trailing comma) is NOT
ignored: `parse_raw_data` always fails on it. -/
theorem parse_raw_data_whitespace_remainder_errors (st : TraceData) (line_str w : String)
    (hlast : (line_str.splitOn ",").getLast? = some w)
    (hw : ∀ c ∈ w.data, isSpaceLike c) :
    ∃ msg, st.parse_raw_data line_str = .error msg := by
  unfold TraceData.parse_raw_data
  generalize hsegs : line_str.splitOn "," = segs at hlast
  clear hsegs
  induction segs generalizing st with
  | nil => simp at hlast
  | cons x rest ih =>
    cases rest with
    | nil =>
      have hx : x = w := by simpa using hlast
      subst hx
      obtain ⟨msg, hmsg⟩ := parseSegment_whitespace_err st x hw
      exact ⟨msg, by simp [hmsg]⟩
    | cons y t =>
      have hlast2 : (y :: t).getLast? = some w := by
        simpa [List.getLast?_cons_cons] using hlast
      rw [List.foldlM_cons]
      cases hseg : st.parseSegment x with
      | error msg => exact ⟨msg, rfl⟩
      | ok st1 =>
        obtain ⟨msg, hmsg⟩ := ih st1 hlast2
        exact ⟨msg, hmsg⟩

/-- C5 witness: the amended theorem applied at the payload `"0 0 0,\n"`
(three integer columns, remainder `"\n"`). -/
theorem parse_raw_data_whitespace_remainder_errors_witness :
    ∃ msg, (TraceData.from_channel_types [.Integer, .Integer, .Integer]).parse_raw_data
      "0 0 0,\n" = .error msg :=
  parse_raw_data_whitespace_remainder_errors _ "0 0 0,\n" "\n" (by with_unfolding_all rfl)
    (by decide)

/-- C3: against integer columns, a double-difference value `v` for the
current column appends `previous + v + accumulator` and updates the
accumulator to `accumulator + v`; in particular the payload
`10 20 30,"1 "2 "3,"1 "2 "3` decodes to the rows `(10,20,30)`, `(11,22,33)`,
`(13,26,39)`. -/
theorem double_difference_decoding :
    (∀ (st : TraceData) (l : List Int) (acc v prev : Int),
      st.data.get? st.index_channel = some (.Integer l) →
      l.getLast? = some prev →
      st.last_value_difference.get? st.index_channel = some (.Integer acc) →
      st.new_modifier = .DoubleDifference →
      parseI64 st.value_str = some v →
      st.push_found_value = .ok { st with
        data := st.data.set st.index_channel (.Integer (l ++ [prev + v + acc]))
        last_value_difference :=
          st.last_value_difference.set st.index_channel (.Integer (acc + v))
        last_value_modifiers :=
          st.last_value_modifiers.set st.index_channel .DoubleDifference
        value_str := ""
        index_channel := st.index_channel + 1
        is_value_found := false }) ∧
    ((TraceData.from_channel_types [.Integer, .Integer, .Integer]).parse_raw_data
        ("10 20 30," ++ String.mk [doubleQuoteChar] ++ "1 " ++ String.mk [doubleQuoteChar]
          ++ "2 " ++ String.mk [doubleQuoteChar] ++ "3," ++ String.mk [doubleQuoteChar]
          ++ "1 " ++ String.mk [doubleQuoteChar] ++ "2 " ++ String.mk [doubleQuoteChar]
          ++ "3")).map TraceData.data =
      .ok [.Integer [10, 11, 13], .Integer [20, 22, 26], .Integer [30, 33, 39]] := by
  constructor
  · intro st l acc v prev hdata hprev hacc hmod hv
    have h1 : v + prev + acc = prev + v + acc := by ring
    have h2 : acc + v = acc + v := rfl
    simp only [TraceData.push_found_value, hdata, hv, hmod, hprev, hacc,
      TraceData.finishPush, h1]
  · with_unfolding_all rfl

/-- C3 witness: the double-difference rule applied at a concrete one-column
state holding `[10]` with accumulator `0` and pending value `"1"`. -/
theorem double_difference_decoding_witness :
    TraceData.push_found_value
      { data := [.Integer [10]], last_value_modifiers := [.Explicit]
        last_value_difference := [.Integer 0], index_channel := 0
        value_str := "1", is_value_found := true
        new_modifier := .DoubleDifference } =
    .ok { data := [ChannelData.Integer [10]].set 0 (.Integer ([10] ++ [10 + 1 + 0]))
          last_value_modifiers := [ValueModifier.Explicit].set 0 .DoubleDifference
          last_value_difference := [ChannelDataEl.Integer 0].set 0 (.Integer (0 + 1))
          index_channel := 0 + 1
          value_str := ""
          is_value_found := false
          new_modifier := .DoubleDifference } :=
  double_difference_decoding.1
    { data := [.Integer [10]], last_value_modifiers := [.Explicit]
      last_value_difference := [.Integer 0], index_channel := 0
      value_str := "1", is_value_found := true
      new_modifier := .DoubleDifference }
    [10] 0 1 10 rfl rfl rfl rfl rfl

/-- `get_ids` asks `get_id` for each requested attribute name. -/
theorem get_ids_eq_map (attributes : List OwnedAttribute) (names : List String) :
    get_ids attributes names = names.map (fun nm => get_id attributes nm) := by
  unfold get_ids get_id
  apply List.map_congr_left
  intro nm _
  have hfil : List.filter (fun attr : OwnedAttribute => decide (nm = attr.1)) attributes
      = List.filter (fun x => decide (x.1 = nm)) attributes := by
    apply List.filter_congr
    intro a _
    simp [eq_comm]
  rw [hfil]

/-- C6: resolution of a `<trace>` start element carrying no `brushRef`
attribute: with two or more brushes defined the parse fails with the
ambiguous-brush error; with exactly one defined brush that brush is
attached; with zero brushes the resolution is deferred (no current brush). -/
theorem trace_missing_brushref_resolution :
    (∀ (st : PState) (attrs : List OwnedAttribute),
      2 ≤ st.parser_context.brushes.length →
      get_id attrs "brushRef" = none →
      processEvent st (.StartElement "trace" attrs) =
        .error "Tried to give a default brush to the current trace as no reference was given, But this association was ambiguous") ∧
    (∀ (st : PState) (attrs : List OwnedAttribute) (k : String) (b : Brush),
      st.parser_context.brushes = [(k, b)] →
      get_id attrs "brushRef" = none →
      ∃ st', processEvent st (.StartElement "trace" attrs) = .ok st' ∧
        st'.parser_context.current_brush_id = some k ∧
        st'.parser_context.brushes = st.parser_context.brushes) ∧
    (∀ (st : PState) (attrs : List OwnedAttribute),
      st.parser_context.brushes = [] →
      get_id attrs "brushRef" = none →
      ∃ st', processEvent st (.StartElement "trace" attrs) = .ok st' ∧
        st'.parser_context.current_brush_id = none) := by
  have hids : ∀ attrs, ((get_ids attrs ["contextRef", "brushRef"]).get? 1).join =
      get_id attrs "brushRef" := by
    intro attrs
    rw [get_ids_eq_map]
    rfl
  refine ⟨?_, ?_, ?_⟩
  · intro st attrs hlen href
    have h0 : st.parser_context.brushes.length ≠ 0 := by omega
    have h1 : st.parser_context.brushes.length ≠ 1 := by omega
    simp only [processEvent, onTraceStart, hids, href, h0, h1, if_false]
    simp
    rfl
  · intro st attrs k b hbr href
    refine ⟨{ st with parser_context := { st.parser_context with
        is_trace := true
        current_context_id := some
          (match ((get_ids attrs ["contextRef", "brushRef"]).get? 0).join with
           | some candidate => candidate.replace "#" ""
           | none => "ctx0")
        current_brush_id := some k } }, ?_, rfl, rfl⟩
    simp only [processEvent, onTraceStart, hids, href, hbr]
    simp
    rfl
  · intro st attrs hbr href
    refine ⟨{ st with parser_context := { st.parser_context with
        is_trace := true
        current_context_id := some
          (match ((get_ids attrs ["contextRef", "brushRef"]).get? 0).join with
           | some candidate => candidate.replace "#" ""
           | none => "ctx0")
        current_brush_id := none } }, ?_, rfl⟩
    simp only [processEvent, onTraceStart, hids, href, hbr]
    simp
    rfl
/-- C6 witness: the resolution theorem applied at attribute-free `<trace>`
elements against concrete states with two, one and zero defined brushes. -/
theorem trace_missing_brushref_resolution_witness :
    processEvent twoBrushState (.StartElement "trace" []) =
      .error "Tried to give a default brush to the current trace as no reference was given, But this association was ambiguous" ∧
    (∃ st', processEvent oneBrushState (.StartElement "trace" []) = .ok st' ∧
      st'.parser_context.current_brush_id = some "b1" ∧
      st'.parser_context.brushes = oneBrushState.parser_context.brushes) ∧
    (∃ st', processEvent initialPState (.StartElement "trace" []) = .ok st' ∧
      st'.parser_context.current_brush_id = none) :=
  ⟨trace_missing_brushref_resolution.1 twoBrushState [] (by decide) rfl,
   trace_missing_brushref_resolution.2.1 oneBrushState [] "b1" (Brush.init_brush_with_id "b1")
     rfl rfl,
   trace_missing_brushref_resolution.2.2 initialPState [] rfl rfl⟩

/-- C2: the emitter `writer` takes no stroke input at all and never invokes
`BrushCollection::add_brush`: whatever value the undefined
`pressure_channel_exist` call would produce and whatever the sine payload
renders to, its output contains exactly one `<brush>` element and exactly
one `<trace>` element, whose `brushRef` is the fixed `"#br1"` — not one
`<brush>` per distinct input-brush key and one `<trace>` per input stroke. -/
theorem writer_emits_one_fixed_brush_and_trace (p : Bool) (s : String) :
    countElements "brush" (writer p s) = 1 ∧
    countElements "trace" (writer p s) = 1 ∧
    traceBrushRefs (writer p s) = [some "#br1"] := by
  cases p <;>
    simp [writer, countElements, traceBrushRefs, Context.write, Brush.write,
      Context.default, Brush.init, get_id]

theorem mapGet_eq_none_iff {α β : Type} [DecidableEq α] (l : List (α × β)) (k : α) :
    mapGet l k = none ↔ k ∉ l.map Prod.fst := by
  unfold mapGet
  rw [Option.map_eq_none', List.find?_eq_none]
  constructor
  · intro h hk
    rcases List.mem_map.mp hk with ⟨p, hp, hfst⟩
    exact absurd (by simpa using hfst) (by simpa using h p hp)
  · intro h p hp
    simp only [decide_eq_true_eq]
    intro hk
    exact h (List.mem_map.mpr ⟨p, hp, hk⟩)

theorem mapGet_mem {α β : Type} [DecidableEq α] {l : List (α × β)} {k : α} {v : β}
    (h : mapGet l k = some v) : (k, v) ∈ l := by
  unfold mapGet at h
  rcases Option.map_eq_some'.mp h with ⟨p, hp, hv⟩
  have hmem := List.mem_of_find?_eq_some hp
  have hkey := List.find?_some hp
  simp only [decide_eq_true_eq] at hkey
  cases p
  subst hkey hv
  exact hmem

theorem mapGet_append_of_some {α β : Type} [DecidableEq α] {l : List (α × β)}
    (l2 : List (α × β)) {k : α} {v : β} (h : mapGet l k = some v) :
    mapGet (l ++ l2) k = some v := by
  unfold mapGet at h ⊢
  rcases Option.map_eq_some'.mp h with ⟨p, hp, hv⟩
  rw [List.find?_append, hp]
  simpa using hv

theorem mapGet_append_of_none {α β : Type} [DecidableEq α] {l : List (α × β)}
    (l2 : List (α × β)) {k : α} (h : mapGet l k = none) :
    mapGet (l ++ l2) k = mapGet l2 k := by
  unfold mapGet at h ⊢
  rw [Option.map_eq_none'] at h
  rw [List.find?_append, h]
  rfl

/-- `mapInsert` of an absent key is an append. -/
theorem mapInsert_of_absent {α β : Type} [DecidableEq α] {l : List (α × β)} {k : α}
    (h : mapGet l k = none) (v : β) : mapInsert l k v = l ++ [(k, v)] := by
  unfold mapInsert mapContains
  rw [h]
  rfl

/-- In a list with pairwise-distinct keys, an entry found by `mapGet` is the
only entry with its key satisfying a key-determined predicate. -/
theorem filter_length_one {α : Type u_1} (l : List α) (P : α → Bool) (hnd : l.Nodup)
    (a : α) (ha : a ∈ l) (hPa : P a) (huniq : ∀ x ∈ l, P x → x = a) :
    (l.filter P).length = 1 := by
  have hmem : a ∈ l.filter P := List.mem_filter.mpr ⟨ha, hPa⟩
  have hall : ∀ x ∈ l.filter P, x = a := fun x hx =>
    huniq x (List.mem_filter.mp hx).1 (List.mem_filter.mp hx).2
  have hndf : (l.filter P).Nodup := hnd.filter P
  cases hf : l.filter P with
  | nil => rw [hf] at hmem; cases hmem
  | cons x t =>
    rw [hf] at hall hndf
    cases t with
    | nil => rfl
    | cons y t2 =>
      have hx : x = a := hall x (by simp)
      have hy : y = a := hall y (by simp)
      rw [List.nodup_cons] at hndf
      exact absurd (by simp [hx, hy]) hndf.1

theorem toDigitsCore_acc (b : Nat) : ∀ (f n : Nat) (l : List Char),
    Nat.toDigitsCore b f n l = Nat.toDigitsCore b f n [] ++ l := by
  intro f
  induction f with
  | zero => intro n l; simp [Nat.toDigitsCore]
  | succ f ih =>
    intro n l
    rw [Nat.toDigitsCore, Nat.toDigitsCore]
    by_cases h : n / b = 0
    · simp [h]
    · simp only [h, if_false]
      rw [ih (n / b) ((n % b).digitChar :: l), ih (n / b) [(n % b).digitChar]]
      simp

theorem digitChar_val (n : Nat) (h : n < 10) : (Nat.digitChar n).toNat - 48 = n := by
  interval_cases n <;> rfl

theorem valDigits_append_singleton (xs : List Char) (c : Char) :
    valDigits (xs ++ [c]) = 10 * valDigits xs + (c.toNat - 48) := by
  unfold valDigits
  rw [List.foldl_append]
  rfl

theorem toDigitsCore_val : ∀ (f n : Nat), n < f →
    valDigits (Nat.toDigitsCore 10 f n []) = n := by
  intro f
  induction f with
  | zero => intro n h; omega
  | succ f ih =>
    intro n h
    rw [Nat.toDigitsCore]
    by_cases hdiv : n / 10 = 0
    · have hn : n < 10 := by omega
      simp only [hdiv, if_true]
      show valDigits [(n % 10).digitChar] = n
      have : valDigits [(n % 10).digitChar] = (n % 10).digitChar.toNat - 48 := by
        unfold valDigits
        simp
      rw [this, digitChar_val _ (Nat.mod_lt n (by omega))]
      omega
    · simp only [hdiv, if_false]
      rw [toDigitsCore_acc, valDigits_append_singleton,
        ih (n / 10) (by omega),
        digitChar_val _ (Nat.mod_lt n (by omega))]
      omega

/-- `Nat.repr` is injective. -/
theorem natRepr_injective {m n : Nat} (h : Nat.repr m = Nat.repr n) : m = n := by
  have hd : Nat.toDigitsCore 10 (m + 1) m [] = Nat.toDigitsCore 10 (n + 1) n [] :=
    congrArg String.data h
  have hm := toDigitsCore_val (m + 1) m (by omega)
  have hn := toDigitsCore_val (n + 1) n (by omega)
  rw [hd, hn] at hm
  omega

/-- The minted brush ids `br1, br2, ...` are pairwise distinct. -/
theorem brId_injective {m n : Nat} (h : "br" ++ Nat.repr m = "br" ++ Nat.repr n) :
    m = n := by
  apply natRepr_injective
  apply String.ext
  have hd := congrArg String.data h
  rw [string_data_append, string_data_append] at hd
  exact List.append_cancel_left hd

/-- The semantic key ignores the brush's name. -/
theorem semanticKey_rename (b : Brush) (id : String) :
    ({ b with name := id } : Brush).semanticKey = b.semanticKey := rfl

/-- In a list with pairwise-distinct keys, entries agreeing on the key are
equal. -/
theorem eq_of_mem_keys_nodup {α β : Type} (l : List (α × β))
    (h : (l.map Prod.fst).Nodup) {x y : α × β} (hx : x ∈ l) (hy : y ∈ l)
    (hk : x.1 = y.1) : x = y := by
  induction l with
  | nil => cases hx
  | cons p t ih =>
    rw [List.map_cons, List.nodup_cons] at h
    rcases List.mem_cons.mp hx with hx1 | hx2 <;>
      rcases List.mem_cons.mp hy with hy1 | hy2
    · rw [hx1, hy1]
    · subst hx1
      refine absurd ?_ h.1
      rw [hk]
      exact List.mem_map.mpr ⟨y, hy2, rfl⟩
    · subst hy1
      refine absurd ?_ h.1
      rw [← hk]
      exact List.mem_map.mpr ⟨x, hx2, rfl⟩
    · exact ih h.2 hx2 hy2

theorem inv_default : BrushCollection.Inv BrushCollection.default := by
  refine ⟨rfl, ?_, ?_, ?_⟩ <;> simp [BrushCollection.default]

/-- The brush ids of an invariant-satisfying collection are pairwise
distinct. -/
theorem inv_keys_nodup {c : BrushCollection} (h : c.Inv) :
    (c.brushes.map Prod.fst).Nodup := by
  rw [h.1]
  refine List.Nodup.map ?_ (List.nodup_range _)
  intro a b hab
  have := brId_injective hab
  omega

/-- `add_brush` preserves the collection invariant. -/
theorem toString_nat_eq_repr (n : Nat) : toString n = Nat.repr n := rfl

/-- `add_brush` preserves the collection invariant. -/
theorem inv_add {c : BrushCollection} (b : Brush) (h : c.Inv) :
    (c.add_brush b).Inv := by
  obtain ⟨h1, h2, h3, h4⟩ := h
  cases hfind : mapGet c.duplicate_search b.semanticKey with
  | some id =>
    have he : c.add_brush b = { c with mapping := c.mapping ++ [id] } := by
      simp only [BrushCollection.add_brush, hfind]
    rw [he]
    exact ⟨h1, h2, h3, h4⟩
  | none =>
    have hfreshKeys : ("br" ++ toString (c.brushes.length + 1)) ∉ c.brushes.map Prod.fst := by
      rw [h1]
      intro hmem
      rcases List.mem_map.mp hmem with ⟨k, hk, hkeq⟩
      rw [toString_nat_eq_repr] at hkeq
      have hinj : k + 1 = c.brushes.length + 1 := brId_injective hkeq
      have hkn := List.mem_range.mp hk
      omega
    have he : c.add_brush b =
        { brushes := c.brushes ++
            [("br" ++ toString (c.brushes.length + 1),
              { b with name := "br" ++ toString (c.brushes.length + 1) })]
          duplicate_search := c.duplicate_search ++
            [(b.semanticKey, "br" ++ toString (c.brushes.length + 1))]
          mapping := c.mapping ++ ["br" ++ toString (c.brushes.length + 1)] } := by
      simp only [BrushCollection.add_brush, hfind]
      rw [mapInsert_of_absent ((mapGet_eq_none_iff _ _).mpr hfreshKeys),
        mapInsert_of_absent hfind]
    rw [he]
    refine ⟨?_, ?_, ?_, ?_⟩
    · show (c.brushes ++ _).map Prod.fst = _
      rw [List.map_append, List.length_append, h1]
      simp [List.range_succ, toString_nat_eq_repr]
    · intro p hp
      rcases List.mem_append.mp hp with hold | hnew
      · exact mapGet_append_of_some _ (h2 p hold)
      · have hpe : p = ("br" ++ toString (c.brushes.length + 1),
            { b with name := "br" ++ toString (c.brushes.length + 1) }) := by
          simpa using hnew
        subst hpe
        show mapGet (c.duplicate_search ++ [(b.semanticKey, "br" ++ toString (c.brushes.length + 1))])
            ({ b with name := "br" ++ toString (c.brushes.length + 1) } : Brush).semanticKey =
          some ("br" ++ toString (c.brushes.length + 1))
        simp only [semanticKey_rename]
        rw [mapGet_append_of_none _ hfind]
        simp [mapGet]
    · intro q hq
      rcases List.mem_append.mp hq with hold | hnew
      · obtain ⟨br, hbr, hsem⟩ := h3 q hold
        exact ⟨br, mapGet_append_of_some _ hbr, hsem⟩
      · have hqe : q = (b.semanticKey, "br" ++ toString (c.brushes.length + 1)) := by
          simpa using hnew
        subst hqe
        refine ⟨{ b with name := "br" ++ toString (c.brushes.length + 1) }, ?_,
          semanticKey_rename b _⟩
        show mapGet (c.brushes ++ _) _ = _
        rw [mapGet_append_of_none _ ((mapGet_eq_none_iff _ _).mpr hfreshKeys)]
        simp [mapGet]
    · show ((c.duplicate_search ++ _).map Prod.fst).Nodup
      rw [List.map_append, List.nodup_append]
      refine ⟨h4, by simp, ?_⟩
      intro a ha
      simp only [List.map_cons, List.map_nil, List.mem_cons, List.not_mem_nil, or_false]
      intro hak
      rw [hak] at ha
      exact absurd ha ((mapGet_eq_none_iff _ _).mp hfind)

/-- Every reachable collection satisfies the invariant. -/
theorem inv_ofAdds (bs : List Brush) : (BrushCollection.ofAdds bs).Inv := by
  have hstep : ∀ (l : List Brush) (c : BrushCollection), c.Inv →
      (l.foldl BrushCollection.add_brush c).Inv := by
    intro l
    induction l with
    | nil => intro c h; exact h
    | cons b t ih => intro c h; exact ih _ (inv_add b h)
  exact hstep bs _ inv_default

/-- One `add_brush` call always leaves the brush's key indexed, and appends
exactly the resolved id to the emit mapping. -/
theorem add_brush_finds (c : BrushCollection) (b : Brush) :
    ∃ id, mapGet (c.add_brush b).duplicate_search b.semanticKey = some id ∧
      (c.add_brush b).mapping = c.mapping ++ [id] := by
  cases hfind : mapGet c.duplicate_search b.semanticKey with
  | some id =>
    have he : c.add_brush b = { c with mapping := c.mapping ++ [id] } := by
      simp only [BrushCollection.add_brush, hfind]
    rw [he]
    exact ⟨id, hfind, rfl⟩
  | none =>
    refine ⟨"br" ++ toString (c.brushes.length + 1), ?_, ?_⟩
    · show mapGet (c.add_brush b).duplicate_search _ = _
      simp only [BrushCollection.add_brush, hfind]
      rw [mapInsert_of_absent hfind, mapGet_append_of_none _ hfind]
      simp [mapGet]
    · simp only [BrushCollection.add_brush, hfind]

/-- C9: `add_brush` is idempotent with respect to the semantic key: from
every reachable starting collection, adding the same brush twice leaves
exactly one entry for its key in the duplicate-search index and exactly one
brush entry carrying that key, and appends two entries to the emit mapping,
both equal to that entry's id. -/
theorem add_brush_idempotent_on_reachable (bs : List Brush) (b : Brush) :
    ∃ id,
      mapGet (((BrushCollection.ofAdds bs).add_brush b).add_brush b).duplicate_search
        b.semanticKey = some id ∧
      (((((BrushCollection.ofAdds bs).add_brush b).add_brush b).duplicate_search).filter
        (fun q => q.1 = b.semanticKey)).length = 1 ∧
      (((((BrushCollection.ofAdds bs).add_brush b).add_brush b).brushes).filter
        (fun p => p.2.semanticKey = b.semanticKey)).length = 1 ∧
      (((BrushCollection.ofAdds bs).add_brush b).add_brush b).mapping
        = (BrushCollection.ofAdds bs).mapping ++ [id, id] ∧
      ∃ br, mapGet ((((BrushCollection.ofAdds bs).add_brush b).add_brush b).brushes) id
          = some br ∧ br.semanticKey = b.semanticKey := by
  have hinv1 : ((BrushCollection.ofAdds bs).add_brush b).Inv :=
    inv_add b (inv_ofAdds bs)
  obtain ⟨id, hid, hmap1⟩ := add_brush_finds (BrushCollection.ofAdds bs) b
  have hc2gen : ∀ c1 : BrushCollection, mapGet c1.duplicate_search b.semanticKey = some id →
      c1.add_brush b = { c1 with mapping := c1.mapping ++ [id] } := by
    intro c1 hfound
    simp only [BrushCollection.add_brush, hfound]
  have hc2 : ((BrushCollection.ofAdds bs).add_brush b).add_brush b
      = { (BrushCollection.ofAdds bs).add_brush b with
          mapping := ((BrushCollection.ofAdds bs).add_brush b).mapping ++ [id] } :=
    hc2gen _ hid
  obtain ⟨br, hbr, hsem⟩ :=
    hinv1.2.2.1 (b.semanticKey, id) (mapGet_mem hid)
  have hbrushesNodup : (((BrushCollection.ofAdds bs).add_brush b).brushes).Nodup :=
    (inv_keys_nodup hinv1).of_map
  have hdedupNodup : (((BrushCollection.ofAdds bs).add_brush b).duplicate_search).Nodup :=
    hinv1.2.2.2.of_map
  refine ⟨id, ?_, ?_, ?_, ?_, ?_⟩
  · rw [hc2]
    exact hid
  · rw [hc2]
    refine filter_length_one _ _ hdedupNodup (b.semanticKey, id) (mapGet_mem hid)
      (by simp) ?_
    intro x hx hPx
    refine eq_of_mem_keys_nodup _ hinv1.2.2.2 hx (mapGet_mem hid) ?_
    simpa using hPx
  · rw [hc2]
    refine filter_length_one _ _ hbrushesNodup (id, br) (mapGet_mem hbr)
      (by simp [hsem]) ?_
    intro x hx hPx
    have hxkey : mapGet ((BrushCollection.ofAdds bs).add_brush b).duplicate_search
        x.2.semanticKey = some x.1 := hinv1.2.1 x hx
    rw [show x.2.semanticKey = b.semanticKey from by simpa using hPx, hid] at hxkey
    refine eq_of_mem_keys_nodup _ (inv_keys_nodup hinv1) hx (mapGet_mem hbr) ?_
    have hix : id = x.1 := by simpa using hxkey
    exact hix.symm
  · rw [hc2]
    show ((BrushCollection.ofAdds bs).add_brush b).mapping ++ [id] = _
    rw [hmap1, List.append_assoc]
    rfl
  · rw [hc2]
    exact ⟨br, hbr, hsem⟩

theorem except_bind_ok {ε α β : Type} {x : Except ε α} {f : α → Except ε β} {b : β}
    (h : (x >>= f) = .ok b) : ∃ a, x = .ok a ∧ f a = .ok b := by
  cases x with
  | error e => cases h
  | ok a => exact ⟨a, rfl, h⟩

theorem onContextStart_brushes {pc : ParserContext} {attrs : List OwnedAttribute}
    {pc' : ParserContext} (h : onContextStart pc attrs = .ok pc') :
    pc'.brushes = pc.brushes ∧ pc'.current_brush_id = pc.current_brush_id := by
  unfold onContextStart at h
  simp only [] at h
  split at h
  · cases h
    exact ⟨rfl, rfl⟩
  · cases h

theorem onTraceFormatStart_brushes {pc : ParserContext} {pc' : ParserContext}
    (h : onTraceFormatStart pc = .ok pc') :
    pc'.brushes = pc.brushes ∧ pc'.current_brush_id = pc.current_brush_id := by
  unfold onTraceFormatStart at h
  split at h <;> cases h <;> exact ⟨rfl, rfl⟩

theorem onChannelStart_brushes {pc : ParserContext} {attrs : List OwnedAttribute}
    {pc' : ParserContext} (h : onChannelStart pc attrs = .ok pc') :
    pc'.brushes = pc.brushes ∧ pc'.current_brush_id = pc.current_brush_id := by
  unfold onChannelStart at h
  split at h
  · split at h
    · cases h
    · simp only [] at h
      obtain ⟨ch, hch, h⟩ := except_bind_ok h
      cases h
      exact ⟨rfl, rfl⟩
  · cases h
    exact ⟨rfl, rfl⟩

theorem onChannelPropertyStart_brushes {pc : ParserContext} {attrs : List OwnedAttribute}
    {pc' : ParserContext} (h : onChannelPropertyStart pc attrs = .ok pc') :
    pc'.brushes = pc.brushes ∧ pc'.current_brush_id = pc.current_brush_id := by
  unfold onChannelPropertyStart at h
  simp only [] at h
  split at h
  · split at h
    · obtain ⟨kind, hk, h⟩ := except_bind_ok h
      obtain ⟨ru, hr, h⟩ := except_bind_ok h
      split at h
      · cases h
      · split at h
        · cases h
        · split at h
          · cases h
          · cases h
            exact ⟨rfl, rfl⟩
    · cases h
  · cases h
    exact ⟨rfl, rfl⟩
theorem except_map_ok {ε α β : Type} {f : α → β} {x : Except ε α} {b : β}
    (h : Except.map f x = .ok b) : ∃ a, x = .ok a ∧ f a = b := by
  cases x with
  | error e => cases h
  | ok a =>
    refine ⟨a, rfl, ?_⟩
    cases h
    rfl

theorem mem_mapInsert_replace {α β : Type} [DecidableEq α] {l : List (α × β)} {k : α}
    {v : β} (hc : mapContains l k = true) {p : α × β} (hp : p ∈ mapInsert l k v) :
    (p ∈ l ∧ p.1 ≠ k) ∨ p = (k, v) := by
  unfold mapInsert at hp
  rw [if_pos hc] at hp
  rcases List.mem_map.mp hp with ⟨q, hq, hqe⟩
  by_cases hqk : q.1 = k
  · rw [if_pos hqk] at hqe
    exact Or.inr hqe.symm
  · rw [if_neg hqk] at hqe
    exact Or.inl ⟨hqe ▸ hq, hqe ▸ hqk⟩

theorem mem_mapInsert {α β : Type} [DecidableEq α] {l : List (α × β)} {k : α}
    {v : β} {p : α × β} (hp : p ∈ mapInsert l k v) : p ∈ l ∨ p = (k, v) := by
  unfold mapInsert at hp
  split at hp
  · rcases List.mem_map.mp hp with ⟨q, hq, hqe⟩
    by_cases hqk : q.1 = k
    · rw [if_pos hqk] at hqe
      exact Or.inr hqe.symm
    · rw [if_neg hqk] at hqe
      exact Or.inl (hqe ▸ hq)
  · rcases List.mem_append.mp hp with hl | hr
    · exact Or.inl hl
    · exact Or.inr (by simpa using hr)

theorem mapInsert_keys_of_contains {α β : Type} [DecidableEq α] {l : List (α × β)}
    {k : α} (hc : mapContains l k = true) (v : β) :
    (mapInsert l k v).map Prod.fst = l.map Prod.fst := by
  unfold mapInsert
  rw [if_pos hc, List.map_map]
  apply List.map_congr_left
  intro p _
  by_cases hpk : p.1 = k
  · simp [hpk]
  · simp [hpk]

theorem mapInsert_keys_nodup {α β : Type} [DecidableEq α] {l : List (α × β)} {k : α}
    (v : β) (h : (l.map Prod.fst).Nodup) : ((mapInsert l k v).map Prod.fst).Nodup := by
  by_cases hc : mapContains l k
  · rw [mapInsert_keys_of_contains hc]
    exact h
  · have : mapGet l k = none := by
      unfold mapContains at hc
      simpa using hc
    rw [mapInsert_of_absent this, List.map_append, List.nodup_append]
    refine ⟨h, by simp, ?_⟩
    intro a ha
    simp only [List.map_cons, List.map_nil, List.mem_cons, List.not_mem_nil, or_false]
    intro hak
    rw [hak] at ha
    exact absurd ha ((mapGet_eq_none_iff _ _).mp this)

theorem safeStep_refl (pc : ParserContext) : SafeStep pc pc :=
  fun h => ⟨h, fun _ hz => hz⟩

theorem safeStep_trans {pc1 pc2 pc3 : ParserContext} (h12 : SafeStep pc1 pc2)
    (h23 : SafeStep pc2 pc3) : SafeStep pc1 pc3 := by
  intro h1
  obtain ⟨h2, hz12⟩ := h12 h1
  obtain ⟨h3, hz23⟩ := h23 h2
  exact ⟨h3, fun k hk => hz12 k (hz23 k hk)⟩

/-- A step leaving the brush map untouched is safe. -/
theorem safeStep_of_brushes_eq {pc pc' : ParserContext}
    (h : pc'.brushes = pc.brushes) : SafeStep pc pc' := by
  intro hinv
  constructor
  · exact ⟨fun p hp => hinv.1 p (h ▸ hp), by unfold brushKeysNodup; rw [h]; exact hinv.2⟩
  · intro k hk
    obtain ⟨b, hb, hbw⟩ := hk
    exact ⟨b, h ▸ hb, hbw⟩

/-- Replacing an existing entry by one at least as wide is safe. -/
theorem safeStep_insert_wider {pc pc' : ParserContext} {key : String}
    {brush brushNew : Brush} (hget : mapGet pc.brushes key = some brush)
    (hins : pc'.brushes = mapInsert pc.brushes key brushNew)
    (hw : brush.stroke_width_cm ≤ brushNew.stroke_width_cm) : SafeStep pc pc' := by
  intro hinv
  have hc : mapContains pc.brushes key = true := by
    unfold mapContains
    rw [hget]
    rfl
  have hold : (0 : ℚ) ≤ brush.stroke_width_cm := hinv.1 (key, brush) (mapGet_mem hget)
  constructor
  · constructor
    · intro p hp
      rcases mem_mapInsert_replace hc (hins ▸ hp) with ⟨hpl, _⟩ | hpe
      · exact hinv.1 p hpl
      · rw [hpe]
        exact le_trans hold hw
    · unfold brushKeysNodup
      rw [hins]
      exact mapInsert_keys_nodup _ hinv.2
  · intro k hk
    obtain ⟨b, hb, hbw⟩ := hk
    rcases mem_mapInsert_replace hc (hins ▸ hb) with ⟨hpl, _⟩ | hpe
    · exact ⟨b, hpl, hbw⟩
    · have hb2 : brushNew.stroke_width_cm = 0 := by
        have := congrArg Prod.snd hpe
        simp at this
        rw [← this]
        exact hbw
      have hbrush0 : brush.stroke_width_cm = 0 := le_antisymm (hb2 ▸ hw) hold
      have hkkey : k = key := by
        have := congrArg Prod.fst hpe
        simpa using this
      exact ⟨brush, hkkey ▸ mapGet_mem hget, hbrush0⟩

/-- Appending a fresh nonzero-width brush is safe. -/
theorem safeStep_append_nonzero {pc pc' : ParserContext} {key : String} {b : Brush}
    (happ : pc'.brushes = pc.brushes ++ [(key, b)])
    (hw0 : (0 : ℚ) ≤ b.stroke_width_cm) (hwn : b.stroke_width_cm ≠ 0)
    (hfresh : key ∉ pc.brushes.map Prod.fst) : SafeStep pc pc' := by
  intro hinv
  constructor
  · constructor
    · intro p hp
      rcases List.mem_append.mp (happ ▸ hp) with hl | hr
      · exact hinv.1 p hl
      · have : p = (key, b) := by simpa using hr
        rw [this]
        exact hw0
    · unfold brushKeysNodup
      rw [happ, List.map_append, List.nodup_append]
      refine ⟨hinv.2, by simp, ?_⟩
      intro a ha
      simp only [List.map_cons, List.map_nil, List.mem_cons, List.not_mem_nil, or_false]
      intro hak
      rw [hak] at ha
      exact absurd ha hfresh
  · intro k hk
    obtain ⟨bb, hb, hbw⟩ := hk
    rcases List.mem_append.mp (happ ▸ hb) with hl | hr
    · exact ⟨bb, hl, hbw⟩
    · have : (k, bb) = (key, b) := by simpa using hr
      have hbb : bb = b := congrArg Prod.snd this
      exact absurd (hbb ▸ hbw) hwn

theorem onBrushStart_spec {pc : ParserContext} {attrs : List OwnedAttribute}
    {pc' : ParserContext} (h : onBrushStart pc attrs = .ok pc') :
    ∃ id, mapContains pc.brushes id = false ∧
      pc'.brushes = pc.brushes ++ [(id, Brush.init_brush_with_id id)] ∧
      pc'.current_brush_id = some id := by
  unfold onBrushStart at h
  simp only [] at h
  split at h
  · cases h
  · next hc =>
    cases h
    refine ⟨(get_id attrs "id").getD "br0", by simpa using hc, ?_, rfl⟩
    show mapInsert pc.brushes _ _ = _
    rw [mapInsert_of_absent]
    unfold mapContains at hc
    simpa using hc

theorem onBrushPropertyStart_spec {pc : ParserContext} {attrs : List OwnedAttribute}
    {pc' : ParserContext} (h : onBrushPropertyStart pc attrs = .ok pc') :
    pc'.current_brush_id = pc.current_brush_id ∧
      (pc'.brushes = pc.brushes ∨
        ∃ key brush brushNew, mapGet pc.brushes key = some brush ∧
          pc'.brushes = mapInsert pc.brushes key brushNew ∧
          brush.stroke_width_cm ≤ brushNew.stroke_width_cm) := by
  unfold onBrushPropertyStart at h
  split at h
  · cases h
  · next key hkey =>
    split at h
    · cases h
    · next brush hbrush =>
      cases hname : get_id attrs "name" with
      | none =>
        rw [hname] at h
        simp only [] at h
        cases h
      | some property_name =>
        rw [hname] at h
        simp only [] at h
        by_cases hw : property_name = "width" ∨ property_name = "height"
        · rw [if_pos hw] at h
          cases hu : get_id attrs "units" with
          | none => rw [hu] at h; simp only [] at h; cases h
          | some unit_str =>
            rw [hu] at h
            simp only [] at h
            cases hcu : ChannelUnit.parse (some unit_str) with
            | none => rw [hcu] at h; simp only [] at h; cases h
            | some in_unit =>
              rw [hcu] at h
              simp only [] at h
              cases hv : get_id attrs "value" with
              | none => rw [hv] at h; simp only [] at h; cases h
              | some value_str =>
                rw [hv] at h
                simp only [] at h
                cases hp : parseF64 value_str with
                | none => rw [hp] at h; simp only [] at h; cases h
                | some value =>
                  rw [hp] at h
                  simp only [] at h
                  cases hcv : in_unit.convert_to .cm value with
                  | error e => rw [hcv] at h; simp only [] at h; cases h
                  | ok stroke_width =>
                    rw [hcv] at h
                    simp only [] at h
                    cases h
                    exact ⟨rfl, Or.inr ⟨key, brush,
                      { brush with
                        stroke_width_cm := max brush.stroke_width_cm stroke_width },
                      hbrush, rfl, le_max_left _ _⟩⟩
        · rw [if_neg hw] at h
          by_cases hcol : property_name = "color"
          · rw [if_pos hcol] at h
            cases hv : get_id attrs "value" with
            | none => rw [hv] at h; simp only [] at h; cases h
            | some color_string =>
              rw [hv] at h
              simp only [] at h
              by_cases hlen : color_string.length = 7
              · rw [if_pos hlen] at h
                obtain ⟨r, hr, h⟩ := except_bind_ok h
                obtain ⟨g, hg, h⟩ := except_bind_ok h
                obtain ⟨b2, hb2, h⟩ := except_bind_ok h
                cases h
                exact ⟨rfl, Or.inr ⟨key, brush, { brush with color := (r, g, b2) },
                  hbrush, rfl, le_refl _⟩⟩
              · rw [if_neg hlen] at h
                cases h
          · rw [if_neg hcol] at h
            by_cases htr : property_name = "transparency"
            · rw [if_pos htr] at h
              cases hv : get_id attrs "value" with
              | none => rw [hv] at h; simp only [] at h; cases h
              | some value_str =>
                rw [hv] at h
                simp only [] at h
                cases hp : parseU16 value_str with
                | none => rw [hp] at h; simp only [] at h; cases h
                | some v =>
                  rw [hp] at h
                  simp only [] at h
                  cases h
                  exact ⟨rfl, Or.inr ⟨key, brush, { brush with transparency := min v 255 },
                    hbrush, rfl, le_refl _⟩⟩
            · rw [if_neg htr] at h
              by_cases hip : property_name = "ignorePressure"
              · rw [if_pos hip] at h
                cases hv : get_id attrs "value" with
                | none => rw [hv] at h; simp only [] at h; cases h
                | some bool_str =>
                  rw [hv] at h
                  simp only [] at h
                  by_cases hb1 : bool_str = "1" ∨ bool_str = "true"
                  · rw [if_pos hb1] at h
                    cases h
                    exact ⟨rfl, Or.inr ⟨key, brush, { brush with ignorepressure := true },
                      hbrush, rfl, le_refl _⟩⟩
                  · rw [if_neg hb1] at h
                    by_cases hb0 : bool_str = "0" ∨ bool_str = "false"
                    · rw [if_pos hb0] at h
                      cases h
                      exact ⟨rfl, Or.inr ⟨key, brush,
                        { brush with ignorepressure := false }, hbrush, rfl, le_refl _⟩⟩
                    · rw [if_neg hb0] at h
                      cases h
              · rw [if_neg hip] at h
                cases h
                exact ⟨rfl, Or.inl rfl⟩

theorem onTraceStart_spec {pc : ParserContext} {attrs : List OwnedAttribute}
    {pc' : ParserContext} (h : onTraceStart pc attrs = .ok pc') :
    pc'.brushes = pc.brushes := by
  unfold onTraceStart at h
  simp only [] at h
  split at h
  · split at h
    · cases h
    · cases h
      rfl
  · split at h
    · cases h
      rfl
    · split at h
      · cases h
        rfl
      · cases h

theorem onContextEnd_spec {pc pc' : ParserContext} (h : onContextEnd pc = .ok pc') :
    pc'.brushes = pc.brushes ∧ pc'.current_brush_id = pc.current_brush_id := by
  cases h
  exact ⟨rfl, rfl⟩

theorem onTraceFormatEnd_spec {pc pc' : ParserContext} (h : onTraceFormatEnd pc = .ok pc') :
    pc'.brushes = pc.brushes ∧ pc'.current_brush_id = pc.current_brush_id := by
  unfold onTraceFormatEnd at h
  split at h <;> cases h <;> exact ⟨rfl, rfl⟩

theorem onTraceEnd_spec {pc pc' : ParserContext} (h : onTraceEnd pc = .ok pc') :
    pc'.brushes = pc.brushes ∧ pc'.current_brush_id = none := by
  cases h
  exact ⟨rfl, rfl⟩

theorem onBrushEnd_spec {pc pc' : ParserContext} (h : onBrushEnd pc = .ok pc') :
    ∃ key brush, pc.current_brush_id = some key ∧ mapGet pc.brushes key = some brush ∧
      pc'.current_brush_id = none ∧
      pc'.brushes = (if brush.stroke_width_cm = 0 then
        mapInsert pc.brushes key { brush with stroke_width_cm := 1 / 10 }
      else pc.brushes) := by
  unfold onBrushEnd at h
  split at h
  · cases h
  · next key hkey =>
    split at h
    · cases h
    · next brush hbrush =>
      refine ⟨key, brush, hkey, hbrush, ?_⟩
      split at h
      · next hw =>
        cases h
        rw [if_pos hw]
        exact ⟨rfl, rfl⟩
      · next hw =>
        cases h
        rw [if_neg hw]
        exact ⟨rfl, rfl⟩

theorem onCharacters_spec {st : PState} {s : String} {st' : PState}
    (h : onCharacters st s = .ok st') :
    (st'.parser_context.brushes = st.parser_context.brushes ∨
      (st.parser_context.brushes = [] ∧
        st'.parser_context.brushes =
          [("br0", Brush.init "br0" (255, 255, 255) true 0 (1 / 10))])) ∧
    (st'.parser_context.current_brush_id = st.parser_context.current_brush_id ∨
      st'.parser_context.current_brush_id = none) := by
  unfold onCharacters at h
  split at h
  · split at h
    · cases h
    · next ctxid hctx =>
      split at h
      · cases h
      · next ctx hctxget =>
        obtain ⟨td, htd, h⟩ := except_bind_ok h
        simp only [] at h
        by_cases hcond : st.parser_context.current_brush_id = none ∧
            (st.parser_context.brushes.isEmpty = true
              ∨ mapContains st.parser_context.brushes "br0" = true)
        · rw [if_pos hcond] at h
          by_cases hemp : st.parser_context.brushes.isEmpty = true
          · rw [if_pos hemp] at h
            simp only [] at h
            rw [hctx] at h
            simp only [] at h
            cases h
            refine ⟨Or.inr ⟨List.isEmpty_iff.mp hemp, ?_⟩, Or.inr rfl⟩
            show mapInsert st.parser_context.brushes "br0" _ = _
            rw [List.isEmpty_iff.mp hemp]
            rfl
          · rw [if_neg hemp] at h
            simp only [] at h
            rw [hctx] at h
            simp only [] at h
            cases h
            exact ⟨Or.inl rfl, Or.inr rfl⟩
        · rw [if_neg hcond] at h
          rw [hctx] at h
          cases hbru : st.parser_context.current_brush_id with
          | none =>
            rw [hbru] at h
            simp only [] at h
            cases h
          | some bid =>
            rw [hbru] at h
            simp only [] at h
            cases h
            exact ⟨Or.inl rfl, Or.inr rfl⟩
  · cases h
    exact ⟨Or.inl rfl, Or.inl rfl⟩


theorem processEvents_cons (st : PState) (e : XmlEvent) (es : List XmlEvent) :
    processEvents st (e :: es) = processEvent st e >>= fun st1 => processEvents st1 es := rfl

theorem processEvents_append (l1 : List XmlEvent) (st : PState) (l2 : List XmlEvent) :
    processEvents st (l1 ++ l2) =
      processEvents st l1 >>= fun st1 => processEvents st1 l2 := by
  induction l1 generalizing st with
  | nil => rfl
  | cons e es ih =>
    rw [List.cons_append, processEvents_cons, processEvents_cons]
    cases hpe : processEvent st e with
    | error msg => rfl
    | ok s1 =>
      show processEvents s1 (es ++ l2) = processEvents s1 es >>= fun st1 => processEvents st1 l2
      exact ih s1

/-- A `StartElement` whose name is neither `brush` nor `trace` performs a
safe step and leaves the current brush id unchanged. -/
theorem processEvent_start_safe {st st' : PState} {name : String}
    {attrs : List OwnedAttribute} (hb : name ≠ "brush") (ht : name ≠ "trace")
    (h : processEvent st (.StartElement name attrs) = .ok st') :
    SafeStep st.parser_context st'.parser_context ∧
      st'.parser_context.current_brush_id = st.parser_context.current_brush_id := by
  unfold processEvent at h
  simp only [] at h
  split_ifs at h with h1 h2 h3 h4 h5 h6 h7
  · obtain ⟨pc, hpc, he⟩ := except_map_ok h
    subst he
    obtain ⟨hbr, hcur⟩ := onContextStart_brushes hpc
    exact ⟨safeStep_of_brushes_eq hbr, hcur⟩
  · cases h
    exact ⟨safeStep_refl _, rfl⟩
  · obtain ⟨pc, hpc, he⟩ := except_map_ok h
    subst he
    obtain ⟨hbr, hcur⟩ := onTraceFormatStart_brushes hpc
    exact ⟨safeStep_of_brushes_eq hbr, hcur⟩
  · obtain ⟨pc, hpc, he⟩ := except_map_ok h
    subst he
    obtain ⟨hbr, hcur⟩ := onChannelStart_brushes hpc
    exact ⟨safeStep_of_brushes_eq hbr, hcur⟩
  · cases h
    exact ⟨safeStep_refl _, rfl⟩
  · obtain ⟨pc, hpc, he⟩ := except_map_ok h
    subst he
    obtain ⟨hbr, hcur⟩ := onChannelPropertyStart_brushes hpc
    exact ⟨safeStep_of_brushes_eq hbr, hcur⟩
  · obtain ⟨pc, hpc, he⟩ := except_map_ok h
    subst he
    obtain ⟨hcur, hbr⟩ := onBrushPropertyStart_spec hpc
    refine ⟨?_, hcur⟩
    rcases hbr with hbr | ⟨key, brush, brushNew, hget, hins, hw⟩
    · exact safeStep_of_brushes_eq hbr
    · exact safeStep_insert_wider hget hins hw
  · cases h
    exact ⟨safeStep_refl _, rfl⟩

/-- An `EndElement` whose name is neither `brush` nor `trace` leaves both the
brush map and the current brush id unchanged. -/
theorem processEvent_end_safe {st st' : PState} {name : String} (hb : name ≠ "brush")
    (ht : name ≠ "trace") (h : processEvent st (.EndElement name) = .ok st') :
    st'.parser_context.brushes = st.parser_context.brushes ∧
      st'.parser_context.current_brush_id = st.parser_context.current_brush_id := by
  unfold processEvent at h
  simp only [] at h
  split_ifs at h with h1 h2 h3 h4 h5
  · cases h
    exact ⟨rfl, rfl⟩
  · obtain ⟨pc, hpc, he⟩ := except_map_ok h
    subst he
    exact onContextEnd_spec hpc
  · cases h
    exact ⟨rfl, rfl⟩
  · obtain ⟨pc, hpc, he⟩ := except_map_ok h
    subst he
    exact onTraceFormatEnd_spec hpc
  · cases h
    exact ⟨rfl, rfl⟩
  · cases h
    exact ⟨rfl, rfl⟩

theorem processEvent_start_brush {st st' : PState} {attrs : List OwnedAttribute}
    (h : processEvent st (.StartElement "brush" attrs) = .ok st') :
    onBrushStart st.parser_context attrs = .ok st'.parser_context := by
  have h' : Except.map
      (fun pc => ({ parser_context := pc, trace_collect := st.trace_collect } : PState))
      (onBrushStart st.parser_context attrs) = .ok st' := h
  obtain ⟨pc, hpc, he⟩ := except_map_ok h'
  subst he
  exact hpc

theorem processEvent_start_trace {st st' : PState} {attrs : List OwnedAttribute}
    (h : processEvent st (.StartElement "trace" attrs) = .ok st') :
    st'.parser_context.brushes = st.parser_context.brushes := by
  have h' : Except.map
      (fun pc => ({ parser_context := pc, trace_collect := st.trace_collect } : PState))
      (onTraceStart st.parser_context attrs) = .ok st' := h
  obtain ⟨pc, hpc, he⟩ := except_map_ok h'
  subst he
  exact onTraceStart_spec hpc

theorem processEvent_end_brush {st st' : PState}
    (h : processEvent st (.EndElement "brush") = .ok st') :
    onBrushEnd st.parser_context = .ok st'.parser_context := by
  have h' : Except.map
      (fun pc => ({ parser_context := pc, trace_collect := st.trace_collect } : PState))
      (onBrushEnd st.parser_context) = .ok st' := h
  obtain ⟨pc, hpc, he⟩ := except_map_ok h'
  subst he
  exact hpc

theorem processEvent_end_trace {st st' : PState}
    (h : processEvent st (.EndElement "trace") = .ok st') :
    st'.parser_context.brushes = st.parser_context.brushes ∧
      st'.parser_context.current_brush_id = none := by
  have h' : Except.map
      (fun pc => ({ parser_context := pc, trace_collect := st.trace_collect } : PState))
      (onTraceEnd st.parser_context) = .ok st' := h
  obtain ⟨pc, hpc, he⟩ := except_map_ok h'
  subst he
  exact onTraceEnd_spec hpc

/-- A `Characters` event is a full node-post step: the brush map is either
unchanged or seeded with the width-`0.1` default `br0`. -/
theorem nodePost_characters {st st' : PState} {s : String}
    (h : onCharacters st s = .ok st') :
    NodePost st.parser_context st'.parser_context := by
  obtain ⟨hbr, hcur⟩ := onCharacters_spec h
  refine ⟨?_, hcur⟩
  rcases hbr with hbr | ⟨hemp, hbr⟩
  · exact safeStep_of_brushes_eq hbr
  · intro hinv
    constructor
    · constructor
      · intro p hp
        rw [hbr] at hp
        simp only [List.mem_singleton] at hp
        rw [hp]
        norm_num [Brush.init]
      · unfold brushKeysNodup
        rw [hbr]
        exact List.nodup_singleton _
    · intro k hk
      obtain ⟨b, hb, hbw⟩ := hk
      rw [hbr] at hb
      simp only [List.mem_singleton, Prod.mk.injEq] at hb
      exfalso
      rw [hb.2] at hbw
      norm_num [Brush.init] at hbw

theorem nodePost_trans {pc1 pc2 pc3 : ParserContext} (h12 : NodePost pc1 pc2)
    (h23 : NodePost pc2 pc3) : NodePost pc1 pc3 := by
  refine ⟨safeStep_trans h12.1 h23.1, ?_⟩
  rcases h23.2 with hc | hc
  · rcases h12.2 with hd | hd
    · exact Or.inl (hc.trans hd)
    · exact Or.inr (hc.trans hd)
  · exact Or.inr hc

/-- The `<brush> ... </brush>` bracket is a full node-post step: the start
registers a fresh zero-width entry under the new current key, the children
only perform safe steps, and the end bumps a still-zero width to `0.1` and
clears the current key, so no zero-width key survives that was not already
present. -/
theorem nodePost_brush {pc0 pc1 pc2 pc3 : ParserContext} {attrs : List OwnedAttribute}
    (hstart : onBrushStart pc0 attrs = .ok pc1) (hmid : NodePost pc1 pc2)
    (hend : onBrushEnd pc2 = .ok pc3) : NodePost pc0 pc3 := by
  obtain ⟨id, hfresh, hb1, hcur1⟩ := onBrushStart_spec hstart
  obtain ⟨key, brush, hcur2, hget2, hcur3, hb3⟩ := onBrushEnd_spec hend
  have hkey : key = id := by
    rcases hmid.2 with hc | hc
    · rw [hcur2, hcur1] at hc
      exact Option.some.inj hc
    · rw [hc] at hcur2
      cases hcur2
  subst hkey
  refine ⟨?_, Or.inr hcur3⟩
  intro hinv
  have hgetnone : mapGet pc0.brushes key = none := by
    unfold mapContains at hfresh
    cases hO : mapGet pc0.brushes key with
    | none => rfl
    | some v =>
      rw [hO] at hfresh
      simp at hfresh
  have hfresh' : key ∉ pc0.brushes.map Prod.fst := (mapGet_eq_none_iff _ _).mp hgetnone
  have hinv1 : BrushInv pc1 := by
    constructor
    · intro p hp
      rw [hb1] at hp
      rcases List.mem_append.mp hp with hl | hr
      · exact hinv.1 p hl
      · simp only [List.mem_singleton] at hr
        rw [hr]
        norm_num [Brush.init_brush_with_id]
    · unfold brushKeysNodup
      rw [hb1, List.map_append]
      apply List.Nodup.append hinv.2 (List.nodup_singleton _)
      intro a ha hmem
      simp only [List.map_cons, List.map_nil, List.mem_singleton] at hmem
      subst hmem
      exact hfresh' ha
  obtain ⟨hinv2, hzsub⟩ := hmid.1 hinv1
  have hz1 : ∀ k, hasZeroWidth pc1 k → k = key ∨ hasZeroWidth pc0 k := by
    intro k hk
    obtain ⟨b, hb, hbw⟩ := hk
    rw [hb1] at hb
    rcases List.mem_append.mp hb with hl | hr
    · exact Or.inr ⟨b, hl, hbw⟩
    · simp only [List.mem_singleton, Prod.mk.injEq] at hr
      exact Or.inl hr.1
  by_cases hw : brush.stroke_width_cm = 0
  · rw [if_pos hw] at hb3
    constructor
    · constructor
      · intro p hp
        rw [hb3] at hp
        rcases mem_mapInsert hp with hl | hp0
        · exact hinv2.1 p hl
        · rw [hp0]
          norm_num
      · unfold brushKeysNodup
        rw [hb3]
        exact mapInsert_keys_nodup _ hinv2.2
    · intro k hk
      obtain ⟨b, hb, hbw⟩ := hk
      rw [hb3] at hb
      have hc2 : mapContains pc2.brushes key = true := by
        unfold mapContains
        rw [hget2]
        rfl
      rcases mem_mapInsert_replace hc2 hb with ⟨hl, hne⟩ | hb0
      · rcases hz1 k (hzsub k ⟨b, hl, hbw⟩) with rfl | h0
        · exact absurd rfl hne
        · exact h0
      · exfalso
        have hb2 : b = { brush with stroke_width_cm := 1 / 10 } := congrArg Prod.snd hb0
        rw [hb2] at hbw
        norm_num at hbw
  · rw [if_neg hw] at hb3
    constructor
    · exact ((safeStep_of_brushes_eq hb3) hinv2).1
    · intro k hk
      have hk2 : hasZeroWidth pc2 k := by
        obtain ⟨b, hb, hbw⟩ := hk
        rw [hb3] at hb
        exact ⟨b, hb, hbw⟩
      rcases hz1 k (hzsub k hk2) with rfl | h0
      · exfalso
        obtain ⟨b, hb, hbw⟩ := hk2
        have heq := eq_of_mem_keys_nodup pc2.brushes hinv2.2 hb (mapGet_mem hget2) rfl
        have hbb : b = brush := congrArg Prod.snd heq
        rw [hbb] at hbw
        exact hw hbw
      · exact h0

mutual

/-- Processing the event stream of one complete well-formed XML node is a
safe step that leaves the current brush id unchanged or cleared. -/
theorem nodePost_of_events (x : XmlNode) (st st' : PState)
    (h : processEvents st x.events = .ok st') :
    NodePost st.parser_context st'.parser_context := by
  cases x with
  | text s =>
    rw [XmlNode.events, processEvents_cons] at h
    obtain ⟨st1, h1, h2⟩ := except_bind_ok h
    have h2' : Except.ok (ε := String) st1 = .ok st' := h2
    cases h2'
    exact nodePost_characters h1
  | elem name attrs children =>
    rw [XmlNode.events, processEvents_append] at h
    obtain ⟨st2, h12, h3⟩ := except_bind_ok h
    rw [processEvents_cons] at h12
    obtain ⟨st1, h1, h2⟩ := except_bind_ok h12
    have h3' : processEvent st2 (.EndElement name) = .ok st' := by
      rw [processEvents_cons] at h3
      obtain ⟨st3, hs3, he⟩ := except_bind_ok h3
      have he' : Except.ok (ε := String) st3 = .ok st' := he
      cases he'
      exact hs3
    have hmid := nodesPost_of_events children st1 st2 h2
    by_cases hbr : name = "brush"
    · subst hbr
      exact nodePost_brush (processEvent_start_brush h1) hmid (processEvent_end_brush h3')
    · by_cases htr : name = "trace"
      · subst htr
        have hstart := processEvent_start_trace h1
        have hend := processEvent_end_trace h3'
        exact ⟨safeStep_trans (safeStep_of_brushes_eq hstart)
          (safeStep_trans hmid.1 (safeStep_of_brushes_eq hend.1)), Or.inr hend.2⟩
      · have hstart := processEvent_start_safe hbr htr h1
        have hend := processEvent_end_safe hbr htr h3'
        refine ⟨safeStep_trans hstart.1
          (safeStep_trans hmid.1 (safeStep_of_brushes_eq hend.1)), ?_⟩
        rcases hmid.2 with hc | hc
        · exact Or.inl ((hend.2.trans hc).trans hstart.2)
        · exact Or.inr (hend.2.trans hc)
termination_by sizeOf x

/-- Processing the event stream of a sequence of complete well-formed XML
nodes is a safe step that leaves the current brush id unchanged or
cleared. -/
theorem nodesPost_of_events (xs : List XmlNode) (st st' : PState)
    (h : processEvents st (XmlNode.eventsList xs) = .ok st') :
    NodePost st.parser_context st'.parser_context := by
  cases xs with
  | nil =>
    rw [XmlNode.eventsList] at h
    have h' : Except.ok (ε := String) st = .ok st' := h
    cases h'
    exact ⟨safeStep_refl _, Or.inl rfl⟩
  | cons x rest =>
    rw [XmlNode.eventsList, processEvents_append] at h
    obtain ⟨st1, h1, h2⟩ := except_bind_ok h
    exact nodePost_trans (nodePost_of_events x st st1 h1)
      (nodesPost_of_events rest st1 st' h2)
termination_by sizeOf xs

end

/-- C7: for every well-formed document whose event stream `parser` accepts,
every brush in the returned `ParserResult` has a strictly positive stroke
width: the `</brush>` handler bumps a width that is still exactly `0` to
`0.1`, and the `br0` brush synthesized when no brush exists is created with
width `0.1`. -/
theorem parser_brush_widths_positive (doc : List XmlNode) (res : ParserResult)
    (h : parser (XmlNode.eventsList doc) = .ok res) :
    ∀ p ∈ res.context_brush, (0 : ℚ) < p.2.stroke_width_cm := by
  unfold parser at h
  obtain ⟨st, hst, he⟩ := except_map_ok h
  have hpost := nodesPost_of_events doc _ st hst
  have hinv0 : BrushInv ParserContext.default := by
    constructor
    · intro p hp
      exact absurd hp (List.not_mem_nil p)
    · exact List.nodup_nil
  obtain ⟨hinv, hzsub⟩ := hpost.1 hinv0
  intro p hp
  have hp' : p ∈ st.parser_context.brushes := by
    rw [← he] at hp
    exact hp
  have hle : (0 : ℚ) ≤ p.2.stroke_width_cm := hinv.1 p hp'
  rcases lt_or_eq_of_le hle with hlt | heq0
  · exact hlt
  · exfalso
    have hz : hasZeroWidth st.parser_context p.1 := ⟨p.2, hp', heq0.symm⟩
    obtain ⟨b, hb, _⟩ := hzsub p.1 hz
    exact absurd hb (List.not_mem_nil _)

set_option maxRecDepth 100000 in
/-- C7 witness: the parser accepts `docBrushNoWidth` (whose one brush is
given only a color, so its width is still `0` at `</brush>`), and the
theorem instantiates on the returned brush, whose width was bumped to
`0.1`. -/
theorem parser_brush_widths_positive_witness :
    parser (XmlNode.eventsList docBrushNoWidth) = .ok resBrushNoWidth ∧
      (0 : ℚ) < (Brush.init "b1" (255, 128, 64) false 0 (1 / 10)).stroke_width_cm :=
  have hparse : parser (XmlNode.eventsList docBrushNoWidth) = .ok resBrushNoWidth := by
    with_unfolding_all rfl
  ⟨hparse,
    parser_brush_widths_positive docBrushNoWidth resBrushNoWidth hparse
      ("b1", Brush.init "b1" (255, 128, 64) false 0 (1 / 10)) (List.Mem.head _)⟩

end Inkml
